import Mathlib

/-!
Verification of the authentication/session core of the anypoint-connect
repository: TokenManager, OAuthFlow response mapping, FileStore, Cache and
RateLimiter, shallowly embedded from the TypeScript sources.  Times are
epoch milliseconds as `Nat`; JavaScript exceptions become `Except`/`Option`;
network calls become explicit oracle parameters so that "no network call"
is visible structurally and call counts can be stated.
-/

namespace AnypointConnect

/-- TokenSet record, from `TokenStore.ts` (`AnypointTokens`).  Optional
fields are `Option`; `expiresAt` is an absolute epoch-ms timestamp. -/
structure AnypointTokens where
  accessToken : String
  refreshToken : Option String
  tokenType : String
  expiresIn : Nat
  expiresAt : Nat
  scope : Option String
deriving Repr, DecidableEq

/-- JavaScript truthiness of an optional string: `undefined`, `null` and
the empty string are falsy; every other string is truthy. -/
def jsTruthy : Option String → Bool
  | none => false
  | some s => s ≠ ""

/-- JavaScript `x || d` for an optional string `x`: falls back to `d`
when `x` is absent or the empty string. -/
def jsOrString (x : Option String) (d : String) : String :=
  match x with
  | none => d
  | some s => if s = "" then d else s

/-- JavaScript `x || d` for an optional number `x`: falls back to `d`
when `x` is absent or zero. -/
def jsOrNat (x : Option Nat) (d : Nat) : Nat :=
  match x with
  | none => d
  | some n => if n = 0 then d else n

/-- JSON body of a successful token-endpoint response, from
`OAuthFlow.ts` (`TokenResponse`). -/
structure TokenResponse where
  access_token : String
  refresh_token : Option String
  token_type : Option String
  expires_in : Option Nat
  scope : Option String
deriving Repr, DecidableEq

namespace OAuthFlow

/-- Mapping of a token-endpoint response to a TokenSet in
`OAuthFlow.exchangeCode` (the object literal it returns), at current
time `now`.  `data.refresh_token` is passed through unchanged;
`token_type || 'Bearer'` and `expires_in || 3600` use JS `||`. -/
def exchangeCodeTokens (data : TokenResponse) (now : Nat) : AnypointTokens :=
  { accessToken := data.access_token
    refreshToken := data.refresh_token
    tokenType := jsOrString data.token_type "Bearer"
    expiresIn := jsOrNat data.expires_in 3600
    expiresAt := now + jsOrNat data.expires_in 3600 * 1000
    scope := data.scope }

/-- Mapping of a token-endpoint response to a TokenSet in
`OAuthFlow.refreshToken` (the object literal it returns), at current
time `now`.  The only difference from `exchangeCodeTokens` is
`refreshToken: data.refresh_token || refreshToken` — JS `||`, so an
absent OR empty-string response field falls back to the argument. -/
def refreshTokenTokens (refreshTok : String) (data : TokenResponse) (now : Nat) :
    AnypointTokens :=
  { accessToken := data.access_token
    refreshToken := some (jsOrString data.refresh_token refreshTok)
    tokenType := jsOrString data.token_type "Bearer"
    expiresIn := jsOrNat data.expires_in 3600
    expiresAt := now + jsOrNat data.expires_in 3600 * 1000
    scope := data.scope }

end OAuthFlow

namespace TokenManager

/-- Mutable state of a `TokenManager` together with the contents of its
`TokenStore`: `cachedTokens` is the in-memory field, `storeTokens` the
TokenSet currently persisted by the store (`none` when no file). -/
structure TMState where
  cachedTokens : Option AnypointTokens
  storeTokens : Option AnypointTokens
deriving Repr, DecidableEq

/-- `TokenManager.getTokens`: return the in-memory tokens if present
(JS object truthiness), otherwise load from the store AND write the
result into `cachedTokens`.  Returns the tokens and the updated state. -/
def getTokens (st : TMState) : Option AnypointTokens × TMState :=
  match st.cachedTokens with
  | some t => (some t, st)
  | none => (st.storeTokens, { st with cachedTokens := st.storeTokens })

/-- The 5-minute expiry buffer in `TokenManager.getAccessToken`. -/
def bufferMs : Nat := 5 * 60 * 1000

/-- Result of a `TokenManager` operation: the value or thrown error, the
state after the call (caches may have been written even on a throw), and
how many refresh network calls (`OAuthFlow.refreshToken`) were made. -/
structure TMOutcome (α : Type) where
  result : Except String α
  state : TMState
  refreshCalls : Nat
deriving Repr

/-- `TokenManager.getAccessToken` at current time `now`, with the
refresh network call abstracted as the oracle `refreshFn` (what
`OAuthFlow.refreshToken` returns, or the error it throws).  Mirrors the
source: load tokens (cache-first), throw if none; if
`expiresAt < now + bufferMs`, throw if `!refreshToken` (JS truthiness),
else refresh, save to store, update the cache and return the new access
token; otherwise return the stored access token. -/
def getAccessToken (st : TMState) (now : Nat)
    (refreshFn : String → Except String AnypointTokens) : TMOutcome String :=
  match getTokens st with
  | (none, st1) => ⟨.error "Not authenticated. Run: anc auth login", st1, 0⟩
  | (some tokens, st1) =>
    if tokens.expiresAt < now + bufferMs then
      if jsTruthy tokens.refreshToken then
        match refreshFn (tokens.refreshToken.getD "") with
        | .error e => ⟨.error e, st1, 1⟩
        | .ok newTokens =>
          ⟨.ok newTokens.accessToken,
           { cachedTokens := some newTokens, storeTokens := some newTokens }, 1⟩
      else
        ⟨.error "Token expired and no refresh token. Run: anc auth login", st1, 0⟩
    else ⟨.ok tokens.accessToken, st1, 0⟩

/-- Return value of `TokenManager.getStatus` (`AuthStatus`): the three
optional fields are absent exactly when not authenticated. -/
structure AuthStatus where
  authenticated : Bool
  expiresAt : Option Nat
  isExpired : Option Bool
  canRefresh : Option Bool
deriving Repr, DecidableEq

/-- `TokenManager.getStatus` at current time `now`: loads tokens
(cache-first, which may populate the cache), then computes
`isExpired = expiresAt < now`, `canRefresh = !!refreshToken`,
`authenticated = !isExpired || canRefresh`.  No network oracle is taken:
the function makes no network call. -/
def getStatus (st : TMState) (now : Nat) : AuthStatus × TMState :=
  match getTokens st with
  | (none, st1) => (⟨false, none, none, none⟩, st1)
  | (some tokens, st1) =>
    let isExpired : Bool := tokens.expiresAt < now
    let canRefresh : Bool := jsTruthy tokens.refreshToken
    (⟨!isExpired || canRefresh, some tokens.expiresAt, some isExpired, some canRefresh⟩, st1)

/-- `TokenManager.refresh`: explicit manual refresh.  Throws when no
tokens or no refresh token (`!tokens?.refreshToken`), else refreshes,
saves and caches the new TokenSet. -/
def refresh (st : TMState)
    (refreshFn : String → Except String AnypointTokens) : TMOutcome AnypointTokens :=
  match getTokens st with
  | (none, st1) => ⟨.error "No refresh token available", st1, 0⟩
  | (some tokens, st1) =>
    if jsTruthy tokens.refreshToken then
      match refreshFn (tokens.refreshToken.getD "") with
      | .error e => ⟨.error e, st1, 1⟩
      | .ok newTokens =>
        ⟨.ok newTokens,
         { cachedTokens := some newTokens, storeTokens := some newTokens }, 1⟩
    else ⟨.error "No refresh token available", st1, 0⟩

/-- The TokenSet built by `TokenManager.setAccessToken` at time `now`:
`expiresAt = Date.now() + expiresInSeconds * 1000`, type `Bearer`, no
refresh token, no scope. -/
def setAccessTokenTokens (accessToken : String) (expiresInSeconds : Nat) (now : Nat) :
    AnypointTokens :=
  { accessToken := accessToken
    refreshToken := none
    tokenType := "Bearer"
    expiresIn := expiresInSeconds
    expiresAt := now + expiresInSeconds * 1000
    scope := none }

end TokenManager

/-- On-disk representation written by `FileStore.save`: the object
`{iv, authTag, data}` with hex-encoded fields, serialized as JSON. -/
structure EncRecord where
  iv : String
  authTag : String
  data : String
deriving Repr, DecidableEq

/-- Library primitives used by `FileStore` (node `crypto` and `JSON`),
abstracted as pure functions.  `encrypt key iv plaintext` returns the
hex ciphertext and the GCM auth tag; `decrypt key iv authTag cipher`
returns the plaintext, or `none` when decryption or auth-tag
verification fails (the decipher throwing).  `stringifyTokens` /
`parseTokens` are `JSON.stringify`/`JSON.parse` on a TokenSet
(`parseTokens` is `none` when `JSON.parse` throws), and
`stringifyRecord` / `parseRecord` the same on the `{iv, authTag, data}`
wrapper. -/
structure CryptoEnv where
  encryptionKey : String
  encrypt : String → String → String → String × String
  decrypt : String → String → String → String → Option String
  stringifyTokens : AnypointTokens → String
  parseTokens : String → Option AnypointTokens
  stringifyRecord : EncRecord → String
  parseRecord : String → Option EncRecord

/-- Contents of the token file at `~/.anypoint-connect/tokens.enc`:
`none` when the file does not exist. -/
structure FsState where
  file : Option String
deriving Repr, DecidableEq

namespace FileStore

/-- The `{iv, authTag, data}` record that `FileStore.save` builds for a
TokenSet `t` with the fresh random IV `iv`. -/
def savedRecord (env : CryptoEnv) (iv : String) (t : AnypointTokens) : EncRecord :=
  { iv := iv
    authTag := (env.encrypt env.encryptionKey iv (env.stringifyTokens t)).2
    data := (env.encrypt env.encryptionKey iv (env.stringifyTokens t)).1 }

/-- `FileStore.save`: serialize, encrypt under the derived key with a
fresh IV, and overwrite the file with the JSON of `{iv, authTag, data}`. -/
def save (env : CryptoEnv) (iv : String) (t : AnypointTokens) (_st : FsState) : FsState :=
  { file := some (env.stringifyRecord (savedRecord env iv t)) }

/-- `FileStore.clear`: delete the file if present (idempotent). -/
def clear (_st : FsState) : FsState := { file := none }

/-- `FileStore.exists`: does the token file exist. -/
def fileExists (st : FsState) : Bool := st.file.isSome

/-- The decode pipeline of `FileStore.load` on a file content: parse the
outer JSON record, decrypt and verify, parse the inner JSON TokenSet.
`none` at any stage corresponds to a throw caught by `load`'s
`try/catch`. -/
def decodePipeline (env : CryptoEnv) (content : String) : Option AnypointTokens :=
  (env.parseRecord content).bind fun r =>
    (env.decrypt env.encryptionKey r.iv r.authTag r.data).bind fun plain =>
      env.parseTokens plain

/-- `FileStore.load`: `null` when the file is absent; otherwise run the
decode pipeline, and on any failure (the `catch` branch) `clear()` the
file and return `null`.  Returns the tokens and the file state after
the call; the function is total — no error reaches the caller. -/
def load (env : CryptoEnv) (st : FsState) : Option AnypointTokens × FsState :=
  match st.file with
  | none => (none, st)
  | some content =>
    match decodePipeline env content with
    | none => (none, clear st)
    | some t => (some t, st)

end FileStore

/-- One entry of the TTL cache (`CacheEntry` in `Cache.ts`): the value
and its absolute expiry timestamp. -/
structure CacheEntry (α : Type) where
  value : α
  expiresAt : Nat
deriving Repr, DecidableEq

/-- State of a `Cache` instance: the underlying `Map` as an association
list in insertion order, plus the hit/miss/eviction counters. -/
structure CacheState (α : Type) where
  store : List (String × CacheEntry α)
  hits : Nat
  misses : Nat
  evictions : Nat
deriving Repr, DecidableEq

namespace Cache

/-- JS `Map.get`: the entry for `key`, if any. -/
def mapGet (l : List (String × CacheEntry α)) (key : String) : Option (CacheEntry α) :=
  match l with
  | [] => none
  | p :: rest => if p.1 = key then some p.2 else mapGet rest key

/-- JS `Map.set`: replace the entry in place when the key exists,
otherwise append. -/
def mapSet (l : List (String × CacheEntry α)) (key : String) (e : CacheEntry α) :
    List (String × CacheEntry α) :=
  match l with
  | [] => [(key, e)]
  | p :: rest => if p.1 = key then (key, e) :: rest else p :: mapSet rest key e

/-- JS `Map.delete`: remove the entry for `key`. -/
def mapDelete (l : List (String × CacheEntry α)) (key : String) :
    List (String × CacheEntry α) :=
  match l with
  | [] => []
  | p :: rest => if p.1 = key then rest else p :: mapDelete rest key

/-- `Cache.get` at current time `now`: a missing key is a miss; an entry
with `now > expiresAt` is deleted (lazy eviction) and counted as an
eviction and a miss; otherwise a hit returning the value. -/
def get (st : CacheState α) (key : String) (now : Nat) : Option α × CacheState α :=
  match mapGet st.store key with
  | none => (none, { st with misses := st.misses + 1 })
  | some entry =>
    if now > entry.expiresAt then
      (none,
       { st with
         store := mapDelete st.store key
         evictions := st.evictions + 1
         misses := st.misses + 1 })
    else (some entry.value, { st with hits := st.hits + 1 })

/-- `Cache.set` at current time `now`: unconditional overwrite with
expiry `now + (ttlMs ?? defaultTtlMs)` (nullish coalescing: a ttl of 0
is honored). -/
def set (st : CacheState α) (key : String) (value : α) (ttlMs : Option Nat)
    (defaultTtlMs : Nat) (now : Nat) : CacheState α :=
  { st with store := mapSet st.store key ⟨value, now + ttlMs.getD defaultTtlMs⟩ }

/-- `Cache.getOrCompute`: return the cached value on a hit; on a miss
invoke the compute function (its result abstracted as `computeVal`) and
store it.  The returned `Bool` records whether compute was invoked. -/
def getOrCompute (st : CacheState α) (key : String) (computeVal : α)
    (ttlMs : Option Nat) (defaultTtlMs : Nat) (now : Nat) :
    α × CacheState α × Bool :=
  match get st key now with
  | (some v, st1) => (v, st1, false)
  | (none, st1) => (computeVal, set st1 key computeVal ttlMs defaultTtlMs now, true)

end Cache

/-- Configuration of `OAuthFlow.waitForCallback`: the callback path the
local listener matches (port and timeout are implicit in the events). -/
structure CbConfig where
  callbackPath : String
deriving Repr, DecidableEq

/-- Query parameters of an incoming HTTP request seen by the callback
server: `URL.searchParams.get` yields `null` (`none`) for an absent
parameter. -/
structure CbRequest where
  path : String
  code : Option String
  state : Option String
  error : Option String
  error_description : Option String
deriving Repr, DecidableEq

/-- How the promise returned by `waitForCallback` settles. -/
inductive CbResolution
  | success (code state : String)
  | oauthError (message : String)
  | timedOut
deriving Repr, DecidableEq

/-- HTTP status answered to an incoming request. -/
inductive CbResponse
  | ok200
  | badRequest400
  | notFound404
deriving Repr, DecidableEq

/-- State of one `waitForCallback` call: whether the listener socket is
still open, and whether/how the promise has settled. -/
structure CbServer where
  listenerOpen : Bool
  resolution : Option CbResolution
deriving Repr, DecidableEq

namespace OAuthCallback

/-- State right after `server.listen`: socket open, promise pending. -/
def initial : CbServer := ⟨true, none⟩

/-- `server.close()` followed by `resolve`/`reject r`: the listener is
closed and, by promise semantics, only the first settlement sticks. -/
def settle (s : CbServer) (r : CbResolution) : CbServer :=
  { listenerOpen := false
    resolution := match s.resolution with
      | some old => some old
      | none => some r }

/-- The request handler of `waitForCallback`, mirroring the source: a
request off the callback path is answered 404 and changes nothing; on
the path, a truthy `error` parameter answers 400 and rejects with
`OAuth error: error_description || error`; else truthy `code` and
`state` answer 200 and resolve with that pair; else 400
(`Missing code or state`) with the listener left open. -/
def handleRequest (cfg : CbConfig) (s : CbServer) (r : CbRequest) :
    CbServer × CbResponse :=
  if r.path = cfg.callbackPath then
    if jsTruthy r.error then
      (settle s
         (.oauthError ("OAuth error: " ++ jsOrString r.error_description (r.error.getD ""))),
       .badRequest400)
    else if jsTruthy r.code && jsTruthy r.state then
      (settle s (.success (r.code.getD "") (r.state.getD "")), .ok200)
    else (s, .badRequest400)
  else (s, .notFound404)

/-- Events a `waitForCallback` call can observe: an incoming request, or
the `timeoutMs` timer firing. -/
inductive CbEvent
  | request (r : CbRequest)
  | timerFire
deriving Repr, DecidableEq

/-- One event step.  A closed listener receives no requests (the
connection is refused) and its timeout has been cleared by the `close`
handler, so events on a closed server change nothing.  The timer firing
closes the server and rejects with the timeout error. -/
def step (cfg : CbConfig) (s : CbServer) (e : CbEvent) : CbServer :=
  if s.listenerOpen then
    match e with
    | .request r => (handleRequest cfg s r).1
    | .timerFire => settle s .timedOut
  else s

/-- Run a sequence of events. -/
def run (cfg : CbConfig) (s : CbServer) (events : List CbEvent) : CbServer :=
  events.foldl (step cfg) s

end OAuthCallback

/-- `RateLimiter` configuration after the constructor:
`maxConcurrent = concurrentRequests ?? 10` and
`minIntervalMs = 60000 / requestsPerMinute`. -/
structure RLConfig where
  maxConcurrent : Nat
  minIntervalMs : Nat
deriving Repr, DecidableEq

/-- Where one `execute` caller currently is: not yet called, suspended
in the concurrency queue, suspended in the `setTimeout` interval wait
(with its absolute wake deadline), running `fn`, or finished. -/
inductive CallerPhase
  | idle
  | queued
  | sleeping (wake : Nat)
  | running
  | done
deriving Repr, DecidableEq

/-- An event-loop configuration of a `RateLimiter` with a finite set of
callers: the limiter fields (`running`, `lastRequestTime`, `queue`),
the current time, each caller's phase, and the log of (caller, time)
dispatches in dispatch order.  Code between two `await` suspension
points runs atomically, which is what each event below models. -/
structure RLState where
  cfg : RLConfig
  time : Nat
  running : Nat
  lastRequestTime : Nat
  queue : List Nat
  phases : List CallerPhase
  dispatches : List (Nat × Nat)
deriving Repr, DecidableEq

namespace RateLimiter

/-- Phase of caller `i` (out-of-range callers read as `done`). -/
def getPhase (s : RLState) (i : Nat) : CallerPhase := s.phases.getD i .done

/-- Update the phase of caller `i`. -/
def setPhase (s : RLState) (i : Nat) (p : CallerPhase) : RLState :=
  { s with phases := s.phases.set i p }

/-- The synchronous code after `waitForSlot` returns for caller `i`:
`lastRequestTime = Date.now()`, `running++`, and `fn` starts — one
dispatch, logged at the current time (the log is kept newest-first). -/
def dispatch (s : RLState) (i : Nat) : RLState :=
  { setPhase s i .running with
    lastRequestTime := s.time
    running := s.running + 1
    dispatches := (i, s.time) :: s.dispatches }

/-- The rate-limit interval check in `waitForSlot`, run by caller `i`
(either directly or after being resumed from the queue): if
`elapsed < minIntervalMs` the caller sleeps for the remainder
(`setTimeout(minIntervalMs - elapsed)`), otherwise it dispatches now.
The check is not re-run after the sleep. -/
def intervalCheck (s : RLState) (i : Nat) : RLState :=
  if s.time - s.lastRequestTime < s.cfg.minIntervalMs then
    setPhase s i
      (.sleeping (s.time + (s.cfg.minIntervalMs - (s.time - s.lastRequestTime))))
  else dispatch s i

/-- Scheduler events: caller `i` invokes `execute` (running
`waitForSlot` up to its first suspension), a sleeping caller's timer
fires, `fn` of a running caller completes (with success flag `ok`,
which the `finally` block ignores), or time passes. -/
inductive RLEvent
  | arrive (i : Nat)
  | wake (i : Nat)
  | finish (i : Nat) (ok : Bool)
  | tick (dt : Nat)
deriving Repr, DecidableEq

/-- One event step; `none` when the event is not enabled.  `arrive`
queues the caller iff `running >= maxConcurrent`, else runs the
interval check.  `wake` requires the deadline to have passed and then
dispatches (no re-check of either constraint, as in the source).
`finish` decrements `running` and, via `releaseSlot`, resumes exactly
the head of the queue, which then runs its interval check. -/
def step (s : RLState) (e : RLEvent) : Option RLState :=
  match e with
  | .arrive i =>
    if getPhase s i = .idle then
      if s.running ≥ s.cfg.maxConcurrent then
        some { setPhase s i .queued with queue := s.queue ++ [i] }
      else some (intervalCheck s i)
    else none
  | .wake i =>
    match getPhase s i with
    | .sleeping w => if w ≤ s.time then some (dispatch s i) else none
    | _ => none
  | .finish i _ok =>
    if getPhase s i = .running then
      match s.queue with
      | [] => some { setPhase s i .done with running := s.running - 1 }
      | j :: rest =>
        some (intervalCheck { setPhase s i .done with running := s.running - 1, queue := rest } j)
    else none
  | .tick dt => some { s with time := s.time + dt }

/-- Initial state: `n` callers, none arrived, limiter fields zeroed as
in the constructor (`running = 0`, `lastRequestTime = 0`). -/
def init (cfg : RLConfig) (n : Nat) : RLState :=
  ⟨cfg, 0, 0, 0, [], List.replicate n .idle, []⟩

/-- Run a sequence of events; `none` if any event is not enabled. -/
def run (s : RLState) (events : List RLEvent) : Option RLState :=
  match events with
  | [] => some s
  | e :: rest => (step s e).bind fun s1 => run s1 rest

/-- Is any caller currently in the interval wait. -/
def isSleeping : CallerPhase → Bool
  | .sleeping _ => true
  | _ => false

/-- Is a caller running. -/
def isRunning : CallerPhase → Bool
  | .running => true
  | _ => false

/-- No caller is in the interval wait. -/
def noSleeper (s : RLState) : Bool := s.phases.all fun p => !isSleeping p

/-- Does an event start or resume an admission (`execute` arriving or a
completion resuming the queue head). -/
def isAdmission : RLEvent → Bool
  | .arrive _ => true
  | .finish _ _ => true
  | _ => false

/-- Run a sequence of events under admission-serial scheduling: an
`arrive` or `finish` may only happen while no caller is inside the
interval wait. -/
def runSerial (s : RLState) (events : List RLEvent) : Option RLState :=
  match events with
  | [] => some s
  | e :: rest =>
    if isAdmission e && !noSleeper s then none
    else (step s e).bind fun s1 => runSerial s1 rest

/-- Consecutive dispatch times (log newest-first) are at least
`interval` apart. -/
def gapsOk (interval : Nat) : List (Nat × Nat) → Bool
  | [] => true
  | [_] => true
  | a :: b :: rest => decide (b.2 + interval ≤ a.2) && gapsOk interval (b :: rest)

/-- Number of callers whose `fn` is currently in flight. -/
def runningCount (s : RLState) : Nat := s.phases.countP isRunning

/-- The inductive invariant carried along admission-serial runs:
`running` counts the running callers and respects the ceiling;
`lastRequestTime` is the time of the newest dispatch (0 before any) and
never in the future; logged dispatch gaps respect the interval; queue
members are exactly in phase `queued`, no caller queued twice; at most
one caller sleeps in the interval wait, and a sleeper always has a free
slot reserved and wake deadline `lastRequestTime + minIntervalMs`. -/
structure Inv (s : RLState) : Prop where
  run_count : s.running = runningCount s
  run_le : s.running ≤ s.cfg.maxConcurrent
  last_le_time : s.lastRequestTime ≤ s.time
  gaps : gapsOk s.cfg.minIntervalMs s.dispatches = true
  last_dispatch : (s.dispatches = [] ∧ s.lastRequestTime = 0) ∨
    (∃ i, s.dispatches.head? = some (i, s.lastRequestTime))
  queue_phases : ∀ j ∈ s.queue, getPhase s j = CallerPhase.queued
  queue_nodup : s.queue.Nodup
  sleeper_unique : ∀ i k wi wk, getPhase s i = CallerPhase.sleeping wi →
    getPhase s k = CallerPhase.sleeping wk → i = k
  sleeper_ok : ∀ i w, getPhase s i = CallerPhase.sleeping w →
    s.running < s.cfg.maxConcurrent ∧ w = s.lastRequestTime + s.cfg.minIntervalMs

end RateLimiter

/-! Concrete sample values used to instantiate theorems with hypotheses
and to exhibit counterexamples. -/

/-- A TokenSet that, at time 200000, is inside the 5-minute refresh
buffer (200000 + 300000 > 400000) and carries a refresh token. -/
def wTok : AnypointTokens :=
  { accessToken := "a1", refreshToken := some "r1", tokenType := "Bearer"
    expiresIn := 3600, expiresAt := 400000, scope := none }

/-- The TokenSet a successful refresh returns in the samples. -/
def wTok2 : AnypointTokens :=
  { accessToken := "a2", refreshToken := some "r2", tokenType := "Bearer"
    expiresIn := 3600, expiresAt := 999999, scope := none }

/-- A TokenSet far from expiry at time 200000. -/
def wTokFresh : AnypointTokens :=
  { accessToken := "a3", refreshToken := none, tokenType := "Bearer"
    expiresIn := 3600, expiresAt := 900000, scope := none }

/-- A refresh oracle that succeeds on the sample refresh token. -/
def wRefreshFn : String → Except String AnypointTokens :=
  fun rt => if rt = "r1" then .ok wTok2 else .error "bad refresh token"

/-- A refresh oracle whose network call always fails. -/
def wFailFn : String → Except String AnypointTokens :=
  fun _ => .error "boom"

/-- A token-endpoint response that supplies `refresh_token` as the empty
string (a present but falsy field). -/
def wEmptyRefreshResp : TokenResponse :=
  { access_token := "a9", refresh_token := some "", token_type := none
    expires_in := some 7200, scope := none }

/-- An admission-serial schedule of three `execute` calls on a limiter
with 1 concurrent slot and a 10ms interval: they are processed strictly
sequentially, 10ms apart. -/
def wEvsSerial : List RateLimiter.RLEvent :=
  [.tick 100, .arrive 0, .arrive 1, .arrive 2, .finish 0 true, .tick 10, .wake 1,
   .finish 1 false, .tick 10, .wake 2, .finish 2 true]

/-- The final state of the serial schedule `wEvsSerial`. -/
def wRLFinal : RLState :=
  { cfg := ⟨1, 10⟩, time := 120, running := 0, lastRequestTime := 120, queue := []
    phases := [.done, .done, .done], dispatches := [(2, 120), (1, 110), (0, 100)] }

/-- A limiter state with one running caller and one queued caller. -/
def wRLQueued : RLState :=
  { cfg := ⟨1, 10⟩, time := 50, running := 1, lastRequestTime := 0, queue := [1]
    phases := [.running, .queued], dispatches := [] }

/-- The state after caller 0 of `wRLQueued` finishes: its slot is
released and queued caller 1 is resumed and dispatched at t=50. -/
def wRLResumed : RLState :=
  { cfg := ⟨1, 10⟩, time := 50, running := 1, lastRequestTime := 50, queue := []
    phases := [.done, .running], dispatches := [(1, 50)] }

/-- A concrete `CryptoEnv` whose primitives round-trip on the sample
TokenSet `wTok`: "encryption" is the identity with a fixed tag, and the
serializers are injective on the values the samples use. -/
def wEnv : CryptoEnv :=
  { encryptionKey := "k"
    encrypt := fun _ _ plain => (plain, "tag")
    decrypt := fun _ _ tag cipher => if tag = "tag" then some cipher else none
    stringifyTokens := fun t => t.accessToken
    parseTokens := fun s => if s = "a1" then some wTok else none
    stringifyRecord := fun r => r.iv ++ "|" ++ r.authTag ++ "|" ++ r.data
    parseRecord := fun s =>
      if s = "iv0|tag|a1" then some ⟨"iv0", "tag", "a1"⟩ else none }

/-! Theorems. -/

/-- Claim C1: `TokenManager.getAccessToken` follows the specified
algorithm — no TokenSet anywhere fails with the "unauthenticated, run
login" error and zero refresh calls; a TokenSet inside the 5-minute
buffer with no refresh token fails with the "expired, re-login" error
and zero refresh calls; one inside the buffer with a refresh token
makes exactly one refresh call, persists the refreshed TokenSet to the
store, updates the in-memory cache and returns the new access token;
otherwise the stored access token is returned with zero refresh calls. -/
theorem tokenManager_getAccessToken_spec (st : TokenManager.TMState) (now : Nat)
    (refreshFn : String → Except String AnypointTokens) :
    (st.cachedTokens = none → st.storeTokens = none →
      TokenManager.getAccessToken st now refreshFn =
        ⟨.error "Not authenticated. Run: anc auth login", ⟨none, none⟩, 0⟩)
    ∧ (∀ t, (TokenManager.getTokens st).1 = some t →
        t.expiresAt < now + TokenManager.bufferMs →
        jsTruthy t.refreshToken = false →
        (TokenManager.getAccessToken st now refreshFn).result =
          .error "Token expired and no refresh token. Run: anc auth login" ∧
        (TokenManager.getAccessToken st now refreshFn).refreshCalls = 0)
    ∧ (∀ t rt t1, (TokenManager.getTokens st).1 = some t →
        t.expiresAt < now + TokenManager.bufferMs →
        t.refreshToken = some rt → rt ≠ "" →
        refreshFn rt = .ok t1 →
        TokenManager.getAccessToken st now refreshFn =
          ⟨.ok t1.accessToken, ⟨some t1, some t1⟩, 1⟩)
    ∧ (∀ t, (TokenManager.getTokens st).1 = some t →
        ¬ t.expiresAt < now + TokenManager.bufferMs →
        TokenManager.getAccessToken st now refreshFn =
          ⟨.ok t.accessToken, (TokenManager.getTokens st).2, 0⟩) := by
  obtain ⟨c, sto⟩ := st
  refine ⟨?_, ?_, ?_, ?_⟩
  · intro h1 h2
    simp only at h1 h2
    subst h1; subst h2
    rfl
  · intro t ht hexp hrt
    cases c with
    | some t0 =>
      simp [TokenManager.getTokens] at ht
      subst ht
      simp [TokenManager.getAccessToken, TokenManager.getTokens, hexp, hrt]
    | none =>
      simp [TokenManager.getTokens] at ht
      simp [TokenManager.getAccessToken, TokenManager.getTokens, ht, hexp, hrt]
  · intro t rt t1 ht hexp hrt hne hok
    cases c with
    | some t0 =>
      simp [TokenManager.getTokens] at ht
      subst ht
      simp [TokenManager.getAccessToken, TokenManager.getTokens, hexp, hrt,
        jsTruthy, hne, hok]
    | none =>
      simp [TokenManager.getTokens] at ht
      simp [TokenManager.getAccessToken, TokenManager.getTokens, ht, hexp, hrt,
        jsTruthy, hne, hok]
  · intro t ht hexp
    cases c with
    | some t0 =>
      simp [TokenManager.getTokens] at ht
      subst ht
      simp [TokenManager.getAccessToken, TokenManager.getTokens, hexp]
    | none =>
      simp [TokenManager.getTokens] at ht
      simp [TokenManager.getAccessToken, TokenManager.getTokens, ht, hexp]

/-- Witness for C1: on a state with an empty cache and a stored TokenSet
inside the buffer, with a refresh oracle returning `wTok2`, the refresh
branch of the theorem yields exactly one refresh call, the refreshed
TokenSet in both cache and store, and the new access token. -/
theorem tokenManager_getAccessToken_spec_witness :
    TokenManager.getAccessToken ⟨none, some wTok⟩ 200000 wRefreshFn =
      ⟨.ok wTok2.accessToken, ⟨some wTok2, some wTok2⟩, 1⟩ :=
  (tokenManager_getAccessToken_spec ⟨none, some wTok⟩ 200000 wRefreshFn).2.2.1
    wTok "r1" wTok2 (by decide) (by decide) (by decide) (by decide) rfl

/-- Counterexample to C6 as stated: the source computes
`refreshToken: data.refresh_token || refreshToken`, and JavaScript `||`
treats an empty string as falsy.  So for the response
`wEmptyRefreshResp`, which supplies `refresh_token` as `""`, the claim
says the result's refreshToken equals `""`, but the code retains the
previous token `"old"`. -/
theorem oauthFlow_refreshToken_claim_counterexample :
    wEmptyRefreshResp.refresh_token = some "" ∧
    (OAuthFlow.refreshTokenTokens "old" wEmptyRefreshResp 0).refreshToken = some "old" ∧
    (some "old" : Option String) ≠ some "" := by
  refine ⟨rfl, rfl, by decide⟩

/-- Claim C6 amended: `OAuthFlow.refreshToken(r)` returns a TokenSet
whose refreshToken equals the response's `refresh_token` when the
provider supplies a nonempty one, and equals `r` (the previous token is
retained) when the provider omits it or supplies an empty string. -/
theorem oauthFlow_refreshToken_retention (r : String) (data : TokenResponse) (now : Nat) :
    (data.refresh_token = none →
      (OAuthFlow.refreshTokenTokens r data now).refreshToken = some r)
    ∧ (data.refresh_token = some "" →
      (OAuthFlow.refreshTokenTokens r data now).refreshToken = some r)
    ∧ (∀ x, data.refresh_token = some x → x ≠ "" →
      (OAuthFlow.refreshTokenTokens r data now).refreshToken = some x) := by
  refine ⟨?_, ?_, ?_⟩
  · intro h; simp [OAuthFlow.refreshTokenTokens, jsOrString, h]
  · intro h; simp [OAuthFlow.refreshTokenTokens, jsOrString, h]
  · intro x h hx; simp [OAuthFlow.refreshTokenTokens, jsOrString, h, hx]

/-- Witness for the amended C6: both the omitted case and the
nonempty-supplied case at concrete responses. -/
theorem oauthFlow_refreshToken_retention_witness :
    (OAuthFlow.refreshTokenTokens "old" ⟨"a", none, none, none, none⟩ 5).refreshToken
        = some "old" ∧
    (OAuthFlow.refreshTokenTokens "old" ⟨"a", some "new", none, none, none⟩ 5).refreshToken
        = some "new" :=
  ⟨(oauthFlow_refreshToken_retention "old" ⟨"a", none, none, none, none⟩ 5).1 rfl,
   (oauthFlow_refreshToken_retention "old" ⟨"a", some "new", none, none, none⟩ 5).2.2
     "new" rfl (by decide)⟩

/-- Claim C7: every TokenSet built by `OAuthFlow.exchangeCode`,
`OAuthFlow.refreshToken` or `TokenManager.setAccessToken` satisfies
`expiresAt = issuance-time + expiresIn * 1000`, where `expiresIn` is
the TokenSet field derived from the provider's `expires_in` (defaulted
to 3600 when absent or 0).  In the typed embedding every TokenSet has
the `expiresAt` field, and these three constructors are the only
sources of TokenSets reaching `store.save`. -/
theorem tokenSet_expiresAt_invariant (data : TokenResponse) (r acc : String)
    (secs now : Nat) :
    (OAuthFlow.exchangeCodeTokens data now).expiresAt =
      now + (OAuthFlow.exchangeCodeTokens data now).expiresIn * 1000
    ∧ (OAuthFlow.refreshTokenTokens r data now).expiresAt =
      now + (OAuthFlow.refreshTokenTokens r data now).expiresIn * 1000
    ∧ (TokenManager.setAccessTokenTokens acc secs now).expiresAt =
      now + (TokenManager.setAccessTokenTokens acc secs now).expiresIn * 1000 :=
  ⟨rfl, rfl, rfl⟩

/-- Claim C3: `FileStore.load()` after `FileStore.save(t)` with the same
encryption key and no intervening writes returns `t`, and leaves the
file in place.  The hypotheses record that the crypto and JSON library
primitives round-trip on the values this save actually produced (GCM
decryption inverts encryption under the same key/IV, and
`JSON.parse`/`JSON.stringify` invert on the written record and
TokenSet) — the theorem shows the store's plumbing composes them into a
faithful round trip. -/
theorem fileStore_roundtrip (env : CryptoEnv) (iv : String) (t : AnypointTokens)
    (st : FsState)
    (hrec : env.parseRecord (env.stringifyRecord (FileStore.savedRecord env iv t)) =
      some (FileStore.savedRecord env iv t))
    (hdec : env.decrypt env.encryptionKey (FileStore.savedRecord env iv t).iv
      (FileStore.savedRecord env iv t).authTag (FileStore.savedRecord env iv t).data =
      some (env.stringifyTokens t))
    (htok : env.parseTokens (env.stringifyTokens t) = some t) :
    FileStore.load env (FileStore.save env iv t st) =
      (some t, FileStore.save env iv t st) := by
  simp [FileStore.load, FileStore.save, FileStore.decodePipeline, hrec, hdec, htok]

/-- Witness for C3: the concrete environment `wEnv` round-trips the
sample TokenSet `wTok` through save and load. -/
theorem fileStore_roundtrip_witness :
    FileStore.load wEnv (FileStore.save wEnv "iv0" wTok ⟨none⟩) =
      (some wTok, FileStore.save wEnv "iv0" wTok ⟨none⟩) :=
  fileStore_roundtrip wEnv "iv0" wTok ⟨none⟩ (by decide) (by decide) (by decide)

/-- Claim C4: `FileStore.load()` returns `null` when the token file is
absent; and on any file content whose outer JSON parse, decryption,
auth-tag verification, or inner JSON parse fails (the decode pipeline
yields nothing), it deletes the file, returns `null` without raising
(`load` is total), and `exists()` is false afterwards. -/
theorem fileStore_load_corrupt_safe (env : CryptoEnv) (content : String)
    (h : FileStore.decodePipeline env content = none) :
    FileStore.load env ⟨none⟩ = (none, ⟨none⟩) ∧
    FileStore.load env ⟨some content⟩ = (none, ⟨none⟩) ∧
    FileStore.fileExists (FileStore.load env ⟨some content⟩).2 = false := by
  refine ⟨rfl, ?_, ?_⟩ <;>
    simp [FileStore.load, h, FileStore.clear, FileStore.fileExists]

/-- Witness for C4: arbitrary garbage content fails the decode pipeline
of `wEnv`, so load deletes the file and reports nothing. -/
theorem fileStore_load_corrupt_safe_witness :
    FileStore.load wEnv ⟨some "garbage"⟩ = (none, ⟨none⟩) ∧
    FileStore.fileExists (FileStore.load wEnv ⟨some "garbage"⟩).2 = false :=
  ⟨(fileStore_load_corrupt_safe wEnv "garbage" (by decide)).2.1,
   (fileStore_load_corrupt_safe wEnv "garbage" (by decide)).2.2⟩

/-- Setting a key makes it immediately visible with the new entry. -/
theorem Cache.mapGet_mapSet_self {α : Type} (l : List (String × CacheEntry α))
    (k : String) (e : CacheEntry α) :
    Cache.mapGet (Cache.mapSet l k e) k = some e := by
  induction l with
  | nil => simp [Cache.mapSet, Cache.mapGet]
  | cons p rest ih =>
    by_cases h : p.1 = k
    · simp [Cache.mapSet, Cache.mapGet, h]
    · simp [Cache.mapSet, Cache.mapGet, h, ih]

/-- A key outside the key list is not found. -/
theorem Cache.mapGet_eq_none_of_not_mem {α : Type} (l : List (String × CacheEntry α))
    (k : String) (h : k ∉ l.map Prod.fst) :
    Cache.mapGet l k = none := by
  induction l with
  | nil => rfl
  | cons p rest ih =>
    simp only [List.map_cons, List.mem_cons, not_or] at h
    simp only [Cache.mapGet]
    rw [if_neg (Ne.symm h.1)]
    exact ih h.2

/-- Keys after a set are among the old keys and the new key. -/
theorem Cache.mem_keys_mapSet {α : Type} (l : List (String × CacheEntry α))
    (k x : String) (e : CacheEntry α)
    (h : x ∈ (Cache.mapSet l k e).map Prod.fst) :
    x ∈ l.map Prod.fst ∨ x = k := by
  induction l with
  | nil =>
    simp [Cache.mapSet] at h
    exact Or.inr h
  | cons p rest ih =>
    by_cases hp : p.1 = k
    · simp only [Cache.mapSet, if_pos hp, List.map_cons, List.mem_cons] at h
      rcases h with h | h
      · exact Or.inr h
      · exact Or.inl (by simp [h])
    · simp only [Cache.mapSet, if_neg hp, List.map_cons, List.mem_cons] at h
      rcases h with h | h
      · exact Or.inl (by simp [h])
      · rcases ih h with h2 | h2
        · exact Or.inl (by simp [h2])
        · exact Or.inr h2

/-- Setting a key preserves distinctness of the key list (a JS `Map`
never holds duplicate keys). -/
theorem Cache.keys_mapSet_nodup {α : Type} (l : List (String × CacheEntry α))
    (k : String) (e : CacheEntry α) (h : (l.map Prod.fst).Nodup) :
    ((Cache.mapSet l k e).map Prod.fst).Nodup := by
  induction l with
  | nil => simp [Cache.mapSet]
  | cons p rest ih =>
    simp only [List.map_cons, List.nodup_cons] at h
    by_cases hp : p.1 = k
    · simp only [Cache.mapSet, if_pos hp, List.map_cons, List.nodup_cons]
      exact ⟨by rw [← hp]; exact h.1, h.2⟩
    · simp only [Cache.mapSet, if_neg hp, List.map_cons, List.nodup_cons]
      refine ⟨fun hmem => ?_, ih h.2⟩
      rcases Cache.mem_keys_mapSet rest k p.1 e hmem with h2 | h2
      · exact h.1 h2
      · exact hp h2

/-- Deleting a key of a duplicate-free map makes it absent. -/
theorem Cache.mapGet_mapDelete_self {α : Type} (l : List (String × CacheEntry α))
    (k : String) (h : (l.map Prod.fst).Nodup) :
    Cache.mapGet (Cache.mapDelete l k) k = none := by
  induction l with
  | nil => rfl
  | cons p rest ih =>
    simp only [List.map_cons, List.nodup_cons] at h
    by_cases hp : p.1 = k
    · simp only [Cache.mapDelete, if_pos hp]
      exact Cache.mapGet_eq_none_of_not_mem rest k (by rw [← hp]; exact h.1)
    · simp only [Cache.mapDelete, if_neg hp, Cache.mapGet]
      exact ih h.2

/-- Claim C8: after `set(k, v, ttl)` at time `now` (computed absolute
expiry `now + ttl`), `get(k)` returns `v` while `now2 ≤ now + ttl`
(counting a hit); once `now + ttl < now2` it returns the miss sentinel,
deletes the expired entry on that access and increments the eviction
and miss counters; and `getOrCompute` in the expired case invokes its
compute function again and stores the fresh result.  The hypothesis
says the cache's key list is duplicate-free, as for a JS `Map`. -/
theorem cache_ttl_spec {α : Type} (st : CacheState α) (k : String) (v : α)
    (ttl dttl now now2 : Nat) (cv : α) (ttl2 : Option Nat)
    (hnd : (st.store.map Prod.fst).Nodup) :
    (now2 ≤ now + ttl →
      Cache.get (Cache.set st k v (some ttl) dttl now) k now2 =
        (some v, { Cache.set st k v (some ttl) dttl now with hits := st.hits + 1 }))
    ∧ (now + ttl < now2 →
      (Cache.get (Cache.set st k v (some ttl) dttl now) k now2).1 = none
      ∧ (Cache.get (Cache.set st k v (some ttl) dttl now) k now2).2.evictions =
          st.evictions + 1
      ∧ (Cache.get (Cache.set st k v (some ttl) dttl now) k now2).2.misses =
          st.misses + 1
      ∧ Cache.mapGet (Cache.get (Cache.set st k v (some ttl) dttl now) k now2).2.store k
          = none
      ∧ (Cache.getOrCompute (Cache.set st k v (some ttl) dttl now) k cv ttl2 dttl now2).2.2
          = true
      ∧ (Cache.getOrCompute (Cache.set st k v (some ttl) dttl now) k cv ttl2 dttl now2).1
          = cv
      ∧ Cache.mapGet
          (Cache.getOrCompute (Cache.set st k v (some ttl) dttl now) k cv ttl2 dttl now2).2.1.store
          k = some ⟨cv, now2 + ttl2.getD dttl⟩) := by
  have hget : Cache.mapGet (Cache.mapSet st.store k ⟨v, now + ttl⟩) k =
      some ⟨v, now + ttl⟩ := Cache.mapGet_mapSet_self st.store k ⟨v, now + ttl⟩
  constructor
  · intro h
    simp [Cache.get, Cache.set, hget, Nat.not_lt.mpr h]
  · intro h
    have hdel : Cache.mapGet
        (Cache.mapDelete (Cache.mapSet st.store k ⟨v, now + ttl⟩) k) k = none :=
      Cache.mapGet_mapDelete_self _ k
        (Cache.keys_mapSet_nodup st.store k ⟨v, now + ttl⟩ hnd)
    refine ⟨?_, ?_, ?_, ?_, ?_, ?_, ?_⟩ <;>
      simp [Cache.get, Cache.set, Cache.getOrCompute, hget, h, hdel,
        Cache.mapGet_mapSet_self]

/-- Witness for C8: a concrete `Nat`-valued cache, `set` with ttl 0 at
time 10; a read at time 10 still hits, a read at time 11 misses,
evicts, and makes `getOrCompute` recompute and store the new value. -/
theorem cache_ttl_spec_witness :
    Cache.get (Cache.set (⟨[], 0, 0, 0⟩ : CacheState Nat) "k" 7 (some 0) 300 10) "k" 10 =
      (some 7, { Cache.set (⟨[], 0, 0, 0⟩ : CacheState Nat) "k" 7 (some 0) 300 10 with
                 hits := 1 })
    ∧ (Cache.get (Cache.set (⟨[], 0, 0, 0⟩ : CacheState Nat) "k" 7 (some 0) 300 10) "k" 11).1
        = none
    ∧ (Cache.getOrCompute (Cache.set (⟨[], 0, 0, 0⟩ : CacheState Nat) "k" 7 (some 0) 300 10)
        "k" 9 (some 20) 300 11).2.2 = true
    ∧ Cache.mapGet
        (Cache.getOrCompute (Cache.set (⟨[], 0, 0, 0⟩ : CacheState Nat) "k" 7 (some 0) 300 10)
          "k" 9 (some 20) 300 11).2.1.store "k" = some ⟨9, 31⟩ :=
  ⟨(cache_ttl_spec (⟨[], 0, 0, 0⟩ : CacheState Nat) "k" 7 0 300 10 10 9 (some 20)
      (by decide)).1 (by decide),
   ((cache_ttl_spec (⟨[], 0, 0, 0⟩ : CacheState Nat) "k" 7 0 300 10 11 9 (some 20)
      (by decide)).2 (by decide)).1,
   ((cache_ttl_spec (⟨[], 0, 0, 0⟩ : CacheState Nat) "k" 7 0 300 10 11 9 (some 20)
      (by decide)).2 (by decide)).2.2.2.2.1,
   ((cache_ttl_spec (⟨[], 0, 0, 0⟩ : CacheState Nat) "k" 7 0 300 10 11 9 (some 20)
      (by decide)).2 (by decide)).2.2.2.2.2.2⟩

/-- Counterexample to C9 as stated: `getStatus` is claimed to leave all
TokenManager state unchanged, but it calls `getTokens`, which on a cold
cache executes `this.cachedTokens = await this.store.load()`.  On the
state with an empty in-memory cache and a stored TokenSet, the call
changes `cachedTokens` from `none` to the stored TokenSet. -/
theorem tokenManager_getStatus_claim_counterexample :
    (TokenManager.getStatus ⟨none, some wTok⟩ 0).2 ≠
      (⟨none, some wTok⟩ : TokenManager.TMState) ∧
    (⟨none, some wTok⟩ : TokenManager.TMState).cachedTokens = none ∧
    ((TokenManager.getStatus ⟨none, some wTok⟩ 0).2).cachedTokens = some wTok := by
  decide

/-- Claim C9 amended: `getStatus()` makes no network calls (the
embedding takes no network oracle), leaves the store untouched and the
observable TokenSet unchanged; its only state effect is that the
in-memory cache ends up holding exactly the `getTokens` result
(population on first access).  `authenticated` is true exactly when the
TokenSet is unexpired (`now ≤ expiresAt`) or a truthy refresh token
exists, and false when nothing is stored. -/
theorem tokenManager_getStatus_amended (st : TokenManager.TMState) (now : Nat) :
    ((TokenManager.getStatus st now).2).storeTokens = st.storeTokens
    ∧ ((TokenManager.getStatus st now).2).cachedTokens = (TokenManager.getTokens st).1
    ∧ (TokenManager.getTokens (TokenManager.getStatus st now).2).1 =
        (TokenManager.getTokens st).1
    ∧ ((TokenManager.getTokens st).1 = none →
        (TokenManager.getStatus st now).1 = ⟨false, none, none, none⟩)
    ∧ (∀ t, (TokenManager.getTokens st).1 = some t →
        (TokenManager.getStatus st now).1 =
          ⟨(!decide (t.expiresAt < now) || jsTruthy t.refreshToken), some t.expiresAt,
           some (decide (t.expiresAt < now)), some (jsTruthy t.refreshToken)⟩
        ∧ ((TokenManager.getStatus st now).1.authenticated = true ↔
            (now ≤ t.expiresAt ∨ jsTruthy t.refreshToken = true))) := by
  obtain ⟨c, sto⟩ := st
  cases c with
  | some t0 =>
    refine ⟨rfl, rfl, rfl, ?_, ?_⟩
    · intro h; simp [TokenManager.getTokens] at h
    · intro t ht
      simp [TokenManager.getTokens] at ht
      subst ht
      constructor
      · simp [TokenManager.getStatus, TokenManager.getTokens]
      · simp [TokenManager.getStatus, TokenManager.getTokens, Nat.not_lt]
  | none =>
    cases sto with
    | none => exact ⟨rfl, rfl, rfl, fun _ => rfl, fun t ht => by
        simp [TokenManager.getTokens] at ht⟩
    | some t0 =>
      refine ⟨rfl, rfl, rfl, ?_, ?_⟩
      · intro h; simp [TokenManager.getTokens] at h
      · intro t ht
        simp [TokenManager.getTokens] at ht
        subst ht
        constructor
        · simp [TokenManager.getStatus, TokenManager.getTokens]
        · simp [TokenManager.getStatus, TokenManager.getTokens, Nat.not_lt]

/-- Witness for the amended C9: with a cold cache and the stored sample
TokenSet at time 0, the cache is populated with the stored TokenSet,
the store is untouched and the status is authenticated (the TokenSet is
unexpired). -/
theorem tokenManager_getStatus_amended_witness :
    ((TokenManager.getStatus ⟨none, some wTok⟩ 0).2).storeTokens = some wTok ∧
    ((TokenManager.getStatus ⟨none, some wTok⟩ 0).2).cachedTokens = some wTok ∧
    (TokenManager.getStatus ⟨none, some wTok⟩ 0).1.authenticated = true :=
  ⟨(tokenManager_getStatus_amended ⟨none, some wTok⟩ 0).1,
   (tokenManager_getStatus_amended ⟨none, some wTok⟩ 0).2.1,
   (((tokenManager_getStatus_amended ⟨none, some wTok⟩ 0).2.2.2.2 wTok rfl).2).mpr
     (Or.inl (by decide))⟩

/-- Counterexample to C10 as stated: when the refresh network call
fails, the error does propagate and the store is untouched, but the
in-memory cached TokenSet is NOT left unchanged on a cold cache — the
preceding `getTokens()` populates `cachedTokens` from the store before
the refresh throws. -/
theorem tokenManager_refreshFailure_claim_counterexample :
    (TokenManager.getAccessToken ⟨none, some wTok⟩ 200000 wFailFn).result =
      .error "boom" ∧
    ((TokenManager.getAccessToken ⟨none, some wTok⟩ 200000 wFailFn).state).cachedTokens =
      some wTok ∧
    (⟨none, some wTok⟩ : TokenManager.TMState).cachedTokens = none :=
  ⟨rfl, by decide, rfl⟩

/-- Claim C10 amended: if the refresh call inside
`TokenManager.getAccessToken` or `TokenManager.refresh` fails, the
error propagates verbatim to the caller with exactly one refresh call
made; the persisted store is unchanged and the tokens observable
through `getTokens` are unchanged (the previously stored tokens remain
loadable) — the only possible state change is an initially empty
in-memory cache being populated with the stored TokenSet. -/
theorem tokenManager_refreshFailure_amended (st : TokenManager.TMState) (now : Nat)
    (refreshFn : String → Except String AnypointTokens) (t : AnypointTokens)
    (rt e : String)
    (ht : (TokenManager.getTokens st).1 = some t)
    (hexp : t.expiresAt < now + TokenManager.bufferMs)
    (hrt : t.refreshToken = some rt) (hne : rt ≠ "")
    (hfail : refreshFn rt = .error e) :
    TokenManager.getAccessToken st now refreshFn =
      ⟨.error e, (TokenManager.getTokens st).2, 1⟩
    ∧ ((TokenManager.getTokens st).2).storeTokens = st.storeTokens
    ∧ (TokenManager.getTokens (TokenManager.getTokens st).2).1 =
        (TokenManager.getTokens st).1
    ∧ TokenManager.refresh st refreshFn =
        ⟨.error e, (TokenManager.getTokens st).2, 1⟩ := by
  obtain ⟨c, sto⟩ := st
  cases c with
  | some t0 =>
    simp [TokenManager.getTokens] at ht
    subst ht
    refine ⟨?_, rfl, rfl, ?_⟩
    · simp [TokenManager.getAccessToken, TokenManager.getTokens, hexp, hrt,
        jsTruthy, hne, hfail]
    · simp [TokenManager.refresh, TokenManager.getTokens, hrt, jsTruthy, hne, hfail]
  | none =>
    simp [TokenManager.getTokens] at ht
    refine ⟨?_, rfl, ?_, ?_⟩
    · simp [TokenManager.getAccessToken, TokenManager.getTokens, ht, hexp, hrt,
        jsTruthy, hne, hfail]
    · simp [TokenManager.getTokens, ht]
    · simp [TokenManager.refresh, TokenManager.getTokens, ht, hrt, jsTruthy, hne, hfail]

/-- Witness for the amended C10: concrete cold-cache state, failing
refresh oracle; the error propagates, the store still holds the sample
TokenSet, and the tokens remain loadable. -/
theorem tokenManager_refreshFailure_amended_witness :
    TokenManager.getAccessToken ⟨none, some wTok⟩ 200000 wFailFn =
      ⟨.error "boom", ⟨some wTok, some wTok⟩, 1⟩ ∧
    TokenManager.refresh ⟨none, some wTok⟩ wFailFn =
      ⟨.error "boom", ⟨some wTok, some wTok⟩, 1⟩ :=
  ⟨(tokenManager_refreshFailure_amended ⟨none, some wTok⟩ 200000 wFailFn wTok "r1" "boom"
      (by decide) (by decide) rfl (by decide) rfl).1,
   (tokenManager_refreshFailure_amended ⟨none, some wTok⟩ 200000 wFailFn wTok "r1" "boom"
      (by decide) (by decide) rfl (by decide) rfl).2.2.2⟩

/-- Settling always closes the listener. -/
theorem OAuthCallback.settle_closed (s : CbServer) (r : CbResolution) :
    (OAuthCallback.settle s r).listenerOpen = false := rfl

/-- Settling always leaves the promise settled. -/
theorem OAuthCallback.settle_isSome (s : CbServer) (r : CbResolution) :
    (OAuthCallback.settle s r).resolution.isSome = true := by
  cases h : s.resolution <;> simp [OAuthCallback.settle, h]

/-- Callback-server invariant: the listener is closed exactly when the
promise has settled.  Preserved by every event. -/
theorem OAuthCallback.step_inv (cfg : CbConfig) (s : CbServer)
    (e : OAuthCallback.CbEvent)
    (h : s.listenerOpen = false ↔ s.resolution.isSome = true) :
    (OAuthCallback.step cfg s e).listenerOpen = false ↔
      (OAuthCallback.step cfg s e).resolution.isSome = true := by
  by_cases hopen : s.listenerOpen = true
  · cases e with
    | request r =>
      by_cases hp : r.path = cfg.callbackPath
      · cases herr : jsTruthy r.error with
        | true =>
          simp [OAuthCallback.step, OAuthCallback.handleRequest, hopen, hp, herr,
            OAuthCallback.settle_closed, OAuthCallback.settle_isSome]
        | false =>
          cases hcs : (jsTruthy r.code && jsTruthy r.state) with
          | true =>
            simp [OAuthCallback.step, OAuthCallback.handleRequest, hopen, hp, herr, hcs,
              OAuthCallback.settle_closed, OAuthCallback.settle_isSome]
          | false =>
            simpa [OAuthCallback.step, OAuthCallback.handleRequest, hopen, hp, herr, hcs]
              using h
      · simpa [OAuthCallback.step, OAuthCallback.handleRequest, hopen, hp] using h
    | timerFire =>
      simp [OAuthCallback.step, hopen, OAuthCallback.settle_closed,
        OAuthCallback.settle_isSome]
  · have hopen2 : s.listenerOpen = false := by simpa using hopen
    simpa [OAuthCallback.step, hopen2] using h

/-- The callback-server invariant holds along any run. -/
theorem OAuthCallback.run_inv (cfg : CbConfig) (events : List OAuthCallback.CbEvent) (s : CbServer)
    (h : s.listenerOpen = false ↔ s.resolution.isSome = true) :
    (OAuthCallback.run cfg s events).listenerOpen = false ↔
      (OAuthCallback.run cfg s events).resolution.isSome = true := by
  induction events generalizing s with
  | nil => exact h
  | cons e rest ih =>
    simpa [OAuthCallback.run] using ih (OAuthCallback.step cfg s e)
      (OAuthCallback.step_inv cfg s e h)

/-- A closed listener is inert: no later event changes anything. -/
theorem OAuthCallback.run_closed (cfg : CbConfig) (events : List OAuthCallback.CbEvent) (s : CbServer)
    (h : s.listenerOpen = false) :
    OAuthCallback.run cfg s events = s := by
  induction events with
  | nil => rfl
  | cons e rest ih =>
    have hstep : OAuthCallback.step cfg s e = s := by
      simp [OAuthCallback.step, h]
    simpa [OAuthCallback.run, hstep] using ih

/-- Claim C5: `waitForCallback` as a state machine over the listener and
its events — (1) a request to the callback path carrying truthy `code`
and `state` (and no error) is answered 200, resolves with exactly that
pair and closes the listener; (2) a request to the callback path
carrying a truthy `error` is answered 400, rejects with the provider's
`error_description || error` and closes the listener; (3) a request to
any other path is answered 404 and changes nothing — listener open,
promise pending; (4) the timeout firing on the open, pending listener
closes it and rejects with the timeout error; (5) from a fresh listener
the resolution is set exactly when the listener is closed, so it is
never left open after a resolution; (6) after the listener closes
(i.e., after the single resolution) no further event changes the state,
so at most one resolution ever occurs; (7) any trace containing the
timer event ends resolved — within the timeout a resolution (callback
or timeout rejection) is guaranteed. -/
theorem waitForCallback_spec :
    (∀ (cfg : CbConfig) (s : CbServer) (r : CbRequest),
      s.resolution = none → r.path = cfg.callbackPath →
      jsTruthy r.error = false → jsTruthy r.code = true → jsTruthy r.state = true →
      OAuthCallback.handleRequest cfg s r =
        (⟨false, some (.success (r.code.getD "") (r.state.getD ""))⟩, .ok200))
    ∧ (∀ (cfg : CbConfig) (s : CbServer) (r : CbRequest),
      s.resolution = none → r.path = cfg.callbackPath → jsTruthy r.error = true →
      OAuthCallback.handleRequest cfg s r =
        (⟨false, some (.oauthError
            ("OAuth error: " ++ jsOrString r.error_description (r.error.getD "")))⟩,
         .badRequest400))
    ∧ (∀ (cfg : CbConfig) (s : CbServer) (r : CbRequest),
      r.path ≠ cfg.callbackPath →
      OAuthCallback.handleRequest cfg s r = (s, .notFound404) ∧
      OAuthCallback.step cfg s (.request r) = s)
    ∧ (∀ (cfg : CbConfig) (s : CbServer),
      s.listenerOpen = true → s.resolution = none →
      OAuthCallback.step cfg s .timerFire = ⟨false, some .timedOut⟩)
    ∧ (∀ (cfg : CbConfig) (events : List OAuthCallback.CbEvent),
      (OAuthCallback.run cfg OAuthCallback.initial events).resolution.isSome = true →
      (OAuthCallback.run cfg OAuthCallback.initial events).listenerOpen = false)
    ∧ (∀ (cfg : CbConfig) (s : CbServer) (events : List OAuthCallback.CbEvent),
      s.listenerOpen = false → OAuthCallback.run cfg s events = s)
    ∧ (∀ (cfg : CbConfig) (evs1 evs2 : List OAuthCallback.CbEvent),
      (OAuthCallback.run cfg OAuthCallback.initial
        (evs1 ++ OAuthCallback.CbEvent.timerFire :: evs2)).resolution.isSome = true) := by
  refine ⟨?_, ?_, ?_, ?_, ?_, ?_, ?_⟩
  · intro cfg s r hres hp herr hcode hstate
    simp [OAuthCallback.handleRequest, OAuthCallback.settle, hp, herr, hcode, hstate, hres]
  · intro cfg s r hres hp herr
    simp [OAuthCallback.handleRequest, OAuthCallback.settle, hp, herr, hres]
  · intro cfg s r hp
    refine ⟨by simp [OAuthCallback.handleRequest, hp], ?_⟩
    by_cases hopen : s.listenerOpen = true
    · simp [OAuthCallback.step, OAuthCallback.handleRequest, hopen, hp]
    · have hopen2 : s.listenerOpen = false := by simpa using hopen
      simp [OAuthCallback.step, hopen2]
  · intro cfg s hopen hres
    simp [OAuthCallback.step, OAuthCallback.settle, hopen, hres]
  · intro cfg events
    exact (OAuthCallback.run_inv cfg events OAuthCallback.initial
      (by simp [OAuthCallback.initial])).mpr
  · intro cfg s events h
    exact OAuthCallback.run_closed cfg events s h
  · intro cfg evs1 evs2
    have hsplit : OAuthCallback.run cfg OAuthCallback.initial
        (evs1 ++ OAuthCallback.CbEvent.timerFire :: evs2) =
        OAuthCallback.run cfg
          (OAuthCallback.step cfg (OAuthCallback.run cfg OAuthCallback.initial evs1)
            OAuthCallback.CbEvent.timerFire) evs2 := by
      simp [OAuthCallback.run, List.foldl_append]
    set s1 := OAuthCallback.run cfg OAuthCallback.initial evs1 with hs1
    have hinv : s1.listenerOpen = false ↔ s1.resolution.isSome = true :=
      OAuthCallback.run_inv cfg evs1 OAuthCallback.initial (by simp [OAuthCallback.initial])
    have hstep : (OAuthCallback.step cfg s1 OAuthCallback.CbEvent.timerFire).resolution.isSome = true := by
      by_cases hopen : s1.listenerOpen = true
      · cases hres : s1.resolution with
        | none => simp [OAuthCallback.step, OAuthCallback.settle, hopen, hres]
        | some x => simp [OAuthCallback.step, OAuthCallback.settle, hopen, hres]
      · have hopen2 : s1.listenerOpen = false := by simpa using hopen
        have := hinv.mp hopen2
        simpa [OAuthCallback.step, hopen2] using this
    have hclosed : (OAuthCallback.step cfg s1 OAuthCallback.CbEvent.timerFire).listenerOpen = false := by
      exact (OAuthCallback.step_inv cfg s1 OAuthCallback.CbEvent.timerFire hinv).mpr hstep
    rw [hsplit, OAuthCallback.run_closed cfg evs2 _ hclosed]
    exact hstep

/-- Witness for C5: a concrete callback on the default path resolves
with exactly the submitted pair and closes the listener; the timer on a
fresh listener rejects with the timeout; and a concrete trace carrying
the timer ends resolved. -/
theorem waitForCallback_spec_witness :
    OAuthCallback.handleRequest ⟨"/api/callback"⟩ OAuthCallback.initial
        ⟨"/api/callback", some "c1", some "s1", none, none⟩ =
      (⟨false, some (.success "c1" "s1")⟩, .ok200)
    ∧ OAuthCallback.step ⟨"/api/callback"⟩ OAuthCallback.initial .timerFire =
      ⟨false, some .timedOut⟩
    ∧ (OAuthCallback.run ⟨"/api/callback"⟩ OAuthCallback.initial
        ([.request ⟨"/other", none, none, none, none⟩] ++
          OAuthCallback.CbEvent.timerFire :: [])).resolution.isSome = true :=
  ⟨waitForCallback_spec.1 ⟨"/api/callback"⟩ OAuthCallback.initial
      ⟨"/api/callback", some "c1", some "s1", none, none⟩ rfl rfl (by decide) (by decide)
      (by decide),
   waitForCallback_spec.2.2.2.1 ⟨"/api/callback"⟩ OAuthCallback.initial rfl rfl,
   waitForCallback_spec.2.2.2.2.2.2 ⟨"/api/callback"⟩
     [.request ⟨"/other", none, none, none, none⟩] []⟩

/-- Counterexample to C2 as stated: with a ceiling of 1 concurrent slot
and a 10ms minimum interval, the following event-loop schedule (each
event enabled by the code's own semantics) ends with `running = 2` and
two dispatches 0ms apart.  Caller 0 dispatches at t=100 and completes;
its completion resumes queued caller 1, which enters the interval sleep
until t=110; caller 2 then arrives, sees `running = 0`, and also sleeps
until t=110; both timers fire and both dispatch — neither the
concurrency check nor the interval check is re-validated after the
sleep.  So the in-flight count exceeds the ceiling and the dispatch gap
is below 60000/rpm. -/
theorem rateLimiter_claim_counterexample :
    (RateLimiter.run (RateLimiter.init ⟨1, 10⟩ 3)
      [.tick 100, .arrive 0, .arrive 1, .finish 0 true, .arrive 2, .tick 10,
       .wake 1, .wake 2]).map RLState.running = some 2
    ∧ (RateLimiter.run (RateLimiter.init ⟨1, 10⟩ 3)
      [.tick 100, .arrive 0, .arrive 1, .finish 0 true, .arrive 2, .tick 10,
       .wake 1, .wake 2]).map RLState.dispatches =
        some [(2, 110), (1, 110), (0, 100)]
    ∧ ¬ 2 ≤ (1 : Nat)
    ∧ RateLimiter.gapsOk 10 [(2, 110), (1, 110), (0, 100)] = false := by
  refine ⟨by decide, by decide, by decide, by decide⟩

/-- Counting a predicate after a positional update: the new count plus
the old element's contribution equals the old count plus the new
element's contribution. -/
theorem countP_set_sum {α : Type} (f : α → Bool) (l : List α) (i : Nat) (p d : α)
    (h : i < l.length) :
    (l.set i p).countP f + (if f (l.getD i d) then 1 else 0) =
      l.countP f + (if f p then 1 else 0) := by
  induction l generalizing i with
  | nil => simp at h
  | cons a tl ih =>
    cases i with
    | zero =>
      by_cases hfa : f a <;> by_cases hfp : f p <;>
        simp [hfa, hfp, List.countP_cons]
    | succ n =>
      have hn : n < tl.length := by simpa using h
      have hrec := ih n hn
      simp only [List.set_cons_succ, List.countP_cons, List.getD_cons_succ]
      omega

/-- A caller whose phase is not the out-of-range default is in range. -/
theorem RateLimiter.getPhase_lt_length (s : RLState) (i : Nat)
    (h : RateLimiter.getPhase s i ≠ CallerPhase.done) : i < s.phases.length := by
  by_contra hge
  apply h
  rw [RateLimiter.getPhase, List.getD_eq_getElem?_getD,
    List.getElem?_eq_none (by omega)]
  rfl

/-- Reading back a phase just set. -/
theorem RateLimiter.getPhase_set_self (s : RLState) (i : Nat) (p : CallerPhase)
    (h : i < s.phases.length) :
    RateLimiter.getPhase (RateLimiter.setPhase s i p) i = p := by
  simp [RateLimiter.getPhase, RateLimiter.setPhase, List.getD_eq_getElem?_getD,
    List.getElem?_set_self h]

/-- Setting one caller's phase leaves the others unchanged. -/
theorem RateLimiter.getPhase_set_ne (s : RLState) (i j : Nat) (p : CallerPhase)
    (h : i ≠ j) :
    RateLimiter.getPhase (RateLimiter.setPhase s i p) j = RateLimiter.getPhase s j := by
  simp [RateLimiter.getPhase, RateLimiter.setPhase, List.getD_eq_getElem?_getD,
    List.getElem?_set_ne h]

/-- When no caller sleeps, no phase reads as sleeping. -/
theorem RateLimiter.noSleeper_getPhase (s : RLState)
    (h : RateLimiter.noSleeper s = true) (i w : Nat) :
    RateLimiter.getPhase s i ≠ CallerPhase.sleeping w := by
  intro hp
  have hlt : i < s.phases.length :=
    RateLimiter.getPhase_lt_length s i (by simp [hp])
  have hval : s.phases.get ⟨i, hlt⟩ = CallerPhase.sleeping w := by
    rw [RateLimiter.getPhase, List.getD_eq_getElem?_getD,
      List.getElem?_eq_getElem hlt] at hp
    simpa using hp
  have hall := List.all_eq_true.mp h _ (List.get_mem s.phases i hlt)
  rw [hval] at hall
  simp [RateLimiter.isSleeping] at hall

/-- Setting a non-sleeping phase preserves sleeplessness. -/
theorem RateLimiter.noSleeper_set (s : RLState) (i : Nat) (p : CallerPhase)
    (h : RateLimiter.noSleeper s = true) (hp : RateLimiter.isSleeping p = false) :
    RateLimiter.noSleeper (RateLimiter.setPhase s i p) = true := by
  rw [RateLimiter.noSleeper, List.all_eq_true]
  intro x hx
  rcases List.mem_or_eq_of_mem_set hx with hmem | hxp
  · exact List.all_eq_true.mp h x hmem
  · simp [hxp, hp]

/-- Phases read through `dispatch` are reads through its `setPhase`. -/
theorem RateLimiter.getPhase_dispatch (t : RLState) (j k : Nat) :
    RateLimiter.getPhase (RateLimiter.dispatch t j) k =
      RateLimiter.getPhase (RateLimiter.setPhase t j CallerPhase.running) k := rfl

/-- Putting caller `j` to sleep at its computed deadline preserves the
invariant, provided a slot is free, `j` is idle or queued and not in
the queue, nobody else sleeps, and the deadline is
`lastRequestTime + minIntervalMs`. -/
theorem RateLimiter.sleepInv (t : RLState) (j w : Nat)
    (hrc : t.running = RateLimiter.runningCount t)
    (hlt : t.running < t.cfg.maxConcurrent)
    (hle : t.lastRequestTime ≤ t.time)
    (hg : RateLimiter.gapsOk t.cfg.minIntervalMs t.dispatches = true)
    (hld : (t.dispatches = [] ∧ t.lastRequestTime = 0) ∨
      (∃ i, t.dispatches.head? = some (i, t.lastRequestTime)))
    (hqp : ∀ k ∈ t.queue, RateLimiter.getPhase t k = CallerPhase.queued)
    (hqn : t.queue.Nodup)
    (hjlt : j < t.phases.length)
    (hjrun : RateLimiter.isRunning (RateLimiter.getPhase t j) = false)
    (hjq : j ∉ t.queue)
    (hothers : ∀ k w2, k ≠ j → RateLimiter.getPhase t k ≠ CallerPhase.sleeping w2)
    (hw : w = t.lastRequestTime + t.cfg.minIntervalMs) :
    RateLimiter.Inv (RateLimiter.setPhase t j (CallerPhase.sleeping w)) := by
  simp only [RateLimiter.getPhase] at hjrun
  refine ⟨?_, ?_, ?_, ?_, ?_, ?_, ?_, ?_, ?_⟩
  · have hc := countP_set_sum RateLimiter.isRunning t.phases j
      (CallerPhase.sleeping w) CallerPhase.done hjlt
    rw [hjrun] at hc
    simp only [RateLimiter.isRunning, Bool.false_eq_true, if_false] at hc
    simp only [RateLimiter.runningCount] at hrc
    simp only [RateLimiter.setPhase, RateLimiter.runningCount]
    omega
  · exact Nat.le_of_lt hlt
  · exact hle
  · exact hg
  · exact hld
  · intro k hk
    have hkj : k ≠ j := fun he => hjq (he ▸ hk)
    rw [RateLimiter.getPhase_set_ne t j k _ (Ne.symm hkj)]
    exact hqp k hk
  · exact hqn
  · intro i k wi wk hi hk
    by_cases hij : i = j
    · by_cases hkj : k = j
      · rw [hij, hkj]
      · rw [RateLimiter.getPhase_set_ne t j k _ (fun he => hkj he.symm)] at hk
        exact absurd hk (hothers k wk hkj)
    · rw [RateLimiter.getPhase_set_ne t j i _ (fun he => hij he.symm)] at hi
      exact absurd hi (hothers i wi hij)
  · intro i wi hi
    by_cases hij : i = j
    · subst hij
      rw [RateLimiter.getPhase_set_self t i _ hjlt] at hi
      have hwi : wi = w := by injection hi.symm
      refine ⟨hlt, ?_⟩
      simp only [RateLimiter.setPhase]
      rw [hwi, hw]
    · rw [RateLimiter.getPhase_set_ne t j i _ (fun he => hij he.symm)] at hi
      exact absurd hi (hothers i wi hij)

/-- Dispatching caller `j` preserves the invariant, provided a slot is
free, `j` is not already running and not queued, nobody else sleeps,
and the minimum interval has elapsed since the newest dispatch. -/
theorem RateLimiter.dispatchInv (t : RLState) (j : Nat)
    (hrc : t.running = RateLimiter.runningCount t)
    (hlt : t.running < t.cfg.maxConcurrent)
    (hle : t.lastRequestTime ≤ t.time)
    (hg : RateLimiter.gapsOk t.cfg.minIntervalMs t.dispatches = true)
    (hld : (t.dispatches = [] ∧ t.lastRequestTime = 0) ∨
      (∃ i, t.dispatches.head? = some (i, t.lastRequestTime)))
    (hqp : ∀ k ∈ t.queue, RateLimiter.getPhase t k = CallerPhase.queued)
    (hqn : t.queue.Nodup)
    (hjlt : j < t.phases.length)
    (hjrun : RateLimiter.isRunning (RateLimiter.getPhase t j) = false)
    (hjq : j ∉ t.queue)
    (hothers : ∀ k w2, k ≠ j → RateLimiter.getPhase t k ≠ CallerPhase.sleeping w2)
    (hgap : t.lastRequestTime + t.cfg.minIntervalMs ≤ t.time) :
    RateLimiter.Inv (RateLimiter.dispatch t j) := by
  clear hle
  simp only [RateLimiter.getPhase] at hjrun
  refine ⟨?_, ?_, ?_, ?_, ?_, ?_, ?_, ?_, ?_⟩
  · have hc := countP_set_sum RateLimiter.isRunning t.phases j
      CallerPhase.running CallerPhase.done hjlt
    rw [hjrun] at hc
    simp only [RateLimiter.isRunning, Bool.false_eq_true, if_false, if_true] at hc
    simp only [RateLimiter.runningCount] at hrc
    simp only [RateLimiter.dispatch, RateLimiter.setPhase, RateLimiter.runningCount]
    omega
  · simp only [RateLimiter.dispatch, RateLimiter.setPhase]
    omega
  · simp only [RateLimiter.dispatch, RateLimiter.setPhase]
    exact Nat.le_refl _
  · simp only [RateLimiter.dispatch, RateLimiter.setPhase]
    cases ht : t.dispatches with
    | nil => simp [RateLimiter.gapsOk]
    | cons p ds =>
      rcases hld with ⟨hnil, _⟩ | ⟨i0, hhead⟩
      · rw [ht] at hnil; cases hnil
      · rw [ht] at hhead
        simp only [List.head?_cons, Option.some_inj] at hhead
        rw [ht] at hg
        have hp2 : p.2 = t.lastRequestTime := by rw [hhead]
        simp only [RateLimiter.gapsOk, Bool.and_eq_true, decide_eq_true_eq]
        exact ⟨by omega, hg⟩
  · exact Or.inr ⟨j, rfl⟩
  · intro k hk
    have hkj : k ≠ j := fun he => hjq (he ▸ hk)
    rw [RateLimiter.getPhase_dispatch, RateLimiter.getPhase_set_ne t j k _ (Ne.symm hkj)]
    exact hqp k hk
  · exact hqn
  · intro i k wi wk hi hk
    by_cases hij : i = j
    · subst hij
      rw [RateLimiter.getPhase_dispatch, RateLimiter.getPhase_set_self t i _ hjlt] at hi
      cases hi
    · rw [RateLimiter.getPhase_dispatch,
        RateLimiter.getPhase_set_ne t j i _ (fun he => hij he.symm)] at hi
      exact absurd hi (hothers i wi hij)
  · intro i wi hi
    by_cases hij : i = j
    · subst hij
      rw [RateLimiter.getPhase_dispatch, RateLimiter.getPhase_set_self t i _ hjlt] at hi
      cases hi
    · rw [RateLimiter.getPhase_dispatch,
        RateLimiter.getPhase_set_ne t j i _ (fun he => hij he.symm)] at hi
      exact absurd hi (hothers i wi hij)

/-- The whole interval check (`intervalCheck`) preserves the invariant under
the same side conditions: the caller either sleeps until
`lastRequestTime + minIntervalMs` or dispatches at once. -/
theorem RateLimiter.intervalCheckInv (t : RLState) (j : Nat)
    (hrc : t.running = RateLimiter.runningCount t)
    (hlt : t.running < t.cfg.maxConcurrent)
    (hle : t.lastRequestTime ≤ t.time)
    (hg : RateLimiter.gapsOk t.cfg.minIntervalMs t.dispatches = true)
    (hld : (t.dispatches = [] ∧ t.lastRequestTime = 0) ∨
      (∃ i, t.dispatches.head? = some (i, t.lastRequestTime)))
    (hqp : ∀ k ∈ t.queue, RateLimiter.getPhase t k = CallerPhase.queued)
    (hqn : t.queue.Nodup)
    (hjlt : j < t.phases.length)
    (hjrun : RateLimiter.isRunning (RateLimiter.getPhase t j) = false)
    (hjq : j ∉ t.queue)
    (hothers : ∀ k w2, k ≠ j → RateLimiter.getPhase t k ≠ CallerPhase.sleeping w2) :
    RateLimiter.Inv (RateLimiter.intervalCheck t j) := by
  rw [RateLimiter.intervalCheck]
  by_cases hcond : t.time - t.lastRequestTime < t.cfg.minIntervalMs
  · rw [if_pos hcond]
    exact RateLimiter.sleepInv t j _ hrc hlt hle hg hld hqp hqn hjlt hjrun hjq hothers
      (by omega)
  · rw [if_neg hcond]
    exact RateLimiter.dispatchInv t j hrc hlt hle hg hld hqp hqn hjlt hjrun hjq hothers
      (by omega)

/-- Every enabled event preserves the invariant, provided admissions
(`arrive` and `finish`) happen only while nobody is in the interval
wait — the admission-serial discipline. -/
theorem RateLimiter.inv_step (s s1 : RLState) (e : RateLimiter.RLEvent)
    (hinv : RateLimiter.Inv s)
    (hser : RateLimiter.isAdmission e = true → RateLimiter.noSleeper s = true)
    (hstep : RateLimiter.step s e = some s1) :
    RateLimiter.Inv s1 := by
  cases e with
  | arrive i =>
    have hnos : RateLimiter.noSleeper s = true := hser rfl
    by_cases hph : RateLimiter.getPhase s i = CallerPhase.idle
    · have hilt : i < s.phases.length :=
        RateLimiter.getPhase_lt_length s i (by simp [hph])
      have hiq : i ∉ s.queue := fun hmem => by
        have h2 := hinv.queue_phases i hmem
        rw [hph] at h2
        simp at h2
      by_cases hcap : s.running ≥ s.cfg.maxConcurrent
      · rw [RateLimiter.step, if_pos hph, if_pos hcap] at hstep
        have hs1 := Option.some.inj hstep
        subst hs1
        have hc := countP_set_sum RateLimiter.isRunning s.phases i
          CallerPhase.queued CallerPhase.done hilt
        have hidle : RateLimiter.isRunning (s.phases.getD i CallerPhase.done) = false := by
          have h2 := hph
          simp only [RateLimiter.getPhase] at h2
          rw [h2]
          rfl
        rw [hidle] at hc
        simp only [RateLimiter.isRunning, Bool.false_eq_true, if_false] at hc
        have hrc := hinv.run_count
        simp only [RateLimiter.runningCount] at hrc
        refine ⟨?_, hinv.run_le, hinv.last_le_time, hinv.gaps, hinv.last_dispatch,
          ?_, ?_, ?_, ?_⟩
        · simp only [RateLimiter.setPhase, RateLimiter.runningCount]
          omega
        · intro k hk
          rcases List.mem_append.mp hk with hk1 | hk2
          · have hki : k ≠ i := fun he => hiq (he ▸ hk1)
            show RateLimiter.getPhase (RateLimiter.setPhase s i CallerPhase.queued) k = _
            rw [RateLimiter.getPhase_set_ne s i k _ (Ne.symm hki)]
            exact hinv.queue_phases k hk1
          · have hki : k = i := by simpa using hk2
            subst hki
            show RateLimiter.getPhase (RateLimiter.setPhase s k CallerPhase.queued) k = _
            rw [RateLimiter.getPhase_set_self s k _ hilt]
        · refine List.Nodup.append hinv.queue_nodup (List.nodup_singleton i) ?_
          intro a ha hb
          have : a = i := by simpa using hb
          exact hiq (this ▸ ha)
        · intro i2 k wi wk hi2 hk
          exfalso
          by_cases hii : i2 = i
          · subst hii
            rw [show RateLimiter.getPhase
                { RateLimiter.setPhase s i2 CallerPhase.queued with queue := s.queue ++ [i2] } i2 =
                RateLimiter.getPhase (RateLimiter.setPhase s i2 CallerPhase.queued) i2 from rfl,
              RateLimiter.getPhase_set_self s i2 _ hilt] at hi2
            cases hi2
          · rw [show RateLimiter.getPhase
                { RateLimiter.setPhase s i CallerPhase.queued with queue := s.queue ++ [i] } i2 =
                RateLimiter.getPhase (RateLimiter.setPhase s i CallerPhase.queued) i2 from rfl,
              RateLimiter.getPhase_set_ne s i i2 _ (fun he => hii he.symm)] at hi2
            exact RateLimiter.noSleeper_getPhase s hnos i2 wi hi2
        · intro i2 wi hi2
          exfalso
          by_cases hii : i2 = i
          · subst hii
            rw [show RateLimiter.getPhase
                { RateLimiter.setPhase s i2 CallerPhase.queued with queue := s.queue ++ [i2] } i2 =
                RateLimiter.getPhase (RateLimiter.setPhase s i2 CallerPhase.queued) i2 from rfl,
              RateLimiter.getPhase_set_self s i2 _ hilt] at hi2
            cases hi2
          · rw [show RateLimiter.getPhase
                { RateLimiter.setPhase s i CallerPhase.queued with queue := s.queue ++ [i] } i2 =
                RateLimiter.getPhase (RateLimiter.setPhase s i CallerPhase.queued) i2 from rfl,
              RateLimiter.getPhase_set_ne s i i2 _ (fun he => hii he.symm)] at hi2
            exact RateLimiter.noSleeper_getPhase s hnos i2 wi hi2
      · rw [RateLimiter.step, if_pos hph, if_neg hcap] at hstep
        have hs1 := Option.some.inj hstep
        rw [← hs1]
        exact RateLimiter.intervalCheckInv s i hinv.run_count (Nat.lt_of_not_le hcap)
          hinv.last_le_time hinv.gaps hinv.last_dispatch hinv.queue_phases
          hinv.queue_nodup hilt (by rw [hph]; rfl) hiq
          (fun k w2 _ => RateLimiter.noSleeper_getPhase s hnos k w2)
    · rw [RateLimiter.step, if_neg hph] at hstep
      cases hstep
  | wake i =>
    cases hph : RateLimiter.getPhase s i with
    | sleeping w =>
      simp only [RateLimiter.step, hph] at hstep
      by_cases hw : w ≤ s.time
      · rw [if_pos hw] at hstep
        have hs1 := Option.some.inj hstep
        rw [← hs1]
        obtain ⟨hltM, hwv⟩ := hinv.sleeper_ok i w hph
        refine RateLimiter.dispatchInv s i hinv.run_count hltM hinv.last_le_time
          hinv.gaps hinv.last_dispatch hinv.queue_phases hinv.queue_nodup
          (RateLimiter.getPhase_lt_length s i (by simp [hph]))
          (by rw [hph]; rfl) ?_ ?_ (by omega)
        · intro hmem
          have h2 := hinv.queue_phases i hmem
          rw [hph] at h2
          cases h2
        · intro k w2 hk hk2
          exact hk (hinv.sleeper_unique k i w2 w hk2 hph)
      · rw [if_neg hw] at hstep
        cases hstep
    | idle => simp [RateLimiter.step, hph] at hstep
    | queued => simp [RateLimiter.step, hph] at hstep
    | running => simp [RateLimiter.step, hph] at hstep
    | done => simp [RateLimiter.step, hph] at hstep
  | finish i ok =>
    have hnos : RateLimiter.noSleeper s = true := hser rfl
    by_cases hph : RateLimiter.getPhase s i = CallerPhase.running
    · have hilt : i < s.phases.length :=
        RateLimiter.getPhase_lt_length s i (by simp [hph])
      have hrun : RateLimiter.isRunning (s.phases.getD i CallerPhase.done) = true := by
        have h2 := hph
        simp only [RateLimiter.getPhase] at h2
        rw [h2]
        rfl
      have hc := countP_set_sum RateLimiter.isRunning s.phases i
        CallerPhase.done CallerPhase.done hilt
      rw [hrun] at hc
      simp only [RateLimiter.isRunning, Bool.false_eq_true, if_false, if_true] at hc
      have hrc := hinv.run_count
      simp only [RateLimiter.runningCount] at hrc
      have hpos : 1 ≤ s.running := by
        have hmem : s.phases.getD i CallerPhase.done ∈ s.phases := by
          rw [List.getD_eq_getElem?_getD, List.getElem?_eq_getElem hilt]
          exact List.getElem_mem hilt
        have hcp : 0 < s.phases.countP RateLimiter.isRunning :=
          List.countP_pos_iff.mpr ⟨_, hmem, hrun⟩
        omega
      have hnosd : RateLimiter.noSleeper
          (RateLimiter.setPhase s i CallerPhase.done) = true :=
        RateLimiter.noSleeper_set s i CallerPhase.done hnos rfl
      simp only [RateLimiter.step, if_pos hph] at hstep
      cases hq : s.queue with
      | nil =>
        rw [hq] at hstep
        have hs1 := Option.some.inj hstep
        rw [← hs1]
        refine ⟨?_, ?_, hinv.last_le_time, hinv.gaps, hinv.last_dispatch,
          ?_, ?_, ?_, ?_⟩
        · show s.running - 1 =
            RateLimiter.runningCount
              { RateLimiter.setPhase s i CallerPhase.done with running := s.running - 1 }
          simp only [RateLimiter.setPhase, RateLimiter.runningCount]
          omega
        · show s.running - 1 ≤ s.cfg.maxConcurrent
          have := hinv.run_le
          omega
        · intro k hk
          have hk2 : k ∈ s.queue := hk
          rw [hq] at hk2
          cases hk2
        · exact hinv.queue_nodup
        · intro i2 k wi wk hi2 _
          exact absurd hi2 (RateLimiter.noSleeper_getPhase _ hnosd i2 wi)
        · intro i2 wi hi2
          exact absurd hi2 (RateLimiter.noSleeper_getPhase _ hnosd i2 wi)
      | cons j rest =>
        rw [hq] at hstep
        have hs1 := Option.some.inj hstep
        rw [← hs1]
        have hjq : j ∈ s.queue := by rw [hq]; exact List.mem_cons_self j rest
        have hjph : RateLimiter.getPhase s j = CallerPhase.queued :=
          hinv.queue_phases j hjq
        have hji : j ≠ i := fun he => by rw [he, hph] at hjph; cases hjph
        have hjlt : j < s.phases.length :=
          RateLimiter.getPhase_lt_length s j (by simp [hjph])
        have hnodup := hinv.queue_nodup
        rw [hq, List.nodup_cons] at hnodup
        refine RateLimiter.intervalCheckInv _ j ?_ ?_ hinv.last_le_time hinv.gaps
          hinv.last_dispatch ?_ hnodup.2 ?_ ?_ hnodup.1 ?_
        · show s.running - 1 =
            RateLimiter.runningCount
              { RateLimiter.setPhase s i CallerPhase.done with
                running := s.running - 1, queue := rest }
          simp only [RateLimiter.setPhase, RateLimiter.runningCount]
          omega
        · show s.running - 1 < s.cfg.maxConcurrent
          have := hinv.run_le
          omega
        · intro k hk
          have hk2 : k ∈ s.queue := by rw [hq]; exact List.mem_cons_of_mem j hk
          have hkph := hinv.queue_phases k hk2
          have hki : k ≠ i := fun he => by rw [he, hph] at hkph; cases hkph
          show RateLimiter.getPhase (RateLimiter.setPhase s i CallerPhase.done) k = _
          rw [RateLimiter.getPhase_set_ne s i k _ (Ne.symm hki)]
          exact hkph
        · show j < (s.phases.set i CallerPhase.done).length
          rw [List.length_set]
          exact hjlt
        · show RateLimiter.isRunning
            (RateLimiter.getPhase (RateLimiter.setPhase s i CallerPhase.done) j) = false
          rw [RateLimiter.getPhase_set_ne s i j _ (Ne.symm hji), hjph]
          rfl
        · intro k w2 hk
          show RateLimiter.getPhase (RateLimiter.setPhase s i CallerPhase.done) k ≠ _
          exact RateLimiter.noSleeper_getPhase _ hnosd k w2
    · rw [RateLimiter.step, if_neg hph] at hstep
      cases hstep
  | tick dt =>
    simp only [RateLimiter.step] at hstep
    have hs1 := Option.some.inj hstep
    rw [← hs1]
    refine ⟨hinv.run_count, hinv.run_le, ?_,
      hinv.gaps, hinv.last_dispatch, hinv.queue_phases, hinv.queue_nodup,
      hinv.sleeper_unique, hinv.sleeper_ok⟩
    show s.lastRequestTime ≤ s.time + dt
    have := hinv.last_le_time
    omega

/-- The invariant holds in the initial limiter state. -/
theorem RateLimiter.inv_init (cfg : RLConfig) (n : Nat) :
    RateLimiter.Inv (RateLimiter.init cfg n) := by
  have hnos : RateLimiter.noSleeper (RateLimiter.init cfg n) = true := by
    rw [RateLimiter.noSleeper, List.all_eq_true]
    intro x hx
    rw [List.eq_of_mem_replicate hx]
    rfl
  refine ⟨?_, Nat.zero_le _, Nat.le_refl _, rfl, Or.inl ⟨rfl, rfl⟩, ?_, List.nodup_nil,
    ?_, ?_⟩
  · show 0 = RateLimiter.runningCount (RateLimiter.init cfg n)
    rw [RateLimiter.runningCount]
    symm
    rw [List.countP_eq_zero]
    intro a ha
    rw [List.eq_of_mem_replicate ha]
    simp [RateLimiter.isRunning]
  · intro k hk
    cases hk
  · intro i k wi wk hi _
    exact absurd hi (RateLimiter.noSleeper_getPhase _ hnos i wi)
  · intro i wi hi
    exact absurd hi (RateLimiter.noSleeper_getPhase _ hnos i wi)

/-- The invariant is preserved along any admission-serial run. -/
theorem RateLimiter.inv_runSerial (events : List RateLimiter.RLEvent)
    (s s1 : RLState) (h : RateLimiter.runSerial s events = some s1)
    (hinv : RateLimiter.Inv s) : RateLimiter.Inv s1 := by
  induction events generalizing s with
  | nil =>
    rw [RateLimiter.runSerial] at h
    exact (Option.some.inj h) ▸ hinv
  | cons e rest ih =>
    rw [RateLimiter.runSerial] at h
    cases hguard : (RateLimiter.isAdmission e && !RateLimiter.noSleeper s) with
    | true => rw [if_pos hguard] at h; cases h
    | false =>
      rw [if_neg (by rw [hguard]; exact Bool.false_ne_true)] at h
      cases hstep : RateLimiter.step s e with
      | none => rw [hstep] at h; cases h
      | some s2 =>
        rw [hstep] at h
        have hser : RateLimiter.isAdmission e = true →
            RateLimiter.noSleeper s = true := by
          intro ha
          cases hn : RateLimiter.noSleeper s with
          | true => rfl
          | false => rw [ha, hn] at hguard; cases hguard
        exact ih s2 h (RateLimiter.inv_step s s2 e hinv hser hstep)

/-- The interval check never touches the configuration. -/
theorem RateLimiter.intervalCheck_cfg (s : RLState) (i : Nat) :
    (RateLimiter.intervalCheck s i).cfg = s.cfg := by
  rw [RateLimiter.intervalCheck]
  split <;> rfl

/-- The interval check never touches the queue. -/
theorem RateLimiter.intervalCheck_queue (s : RLState) (i : Nat) :
    (RateLimiter.intervalCheck s i).queue = s.queue := by
  rw [RateLimiter.intervalCheck]
  split <;> rfl

/-- The interval check leaves the entering caller running or sleeping. -/
theorem RateLimiter.intervalCheck_phase (t : RLState) (j : Nat) (hj : j < t.phases.length) :
    RateLimiter.getPhase (RateLimiter.intervalCheck t j) j = CallerPhase.running ∨
      ∃ w, RateLimiter.getPhase (RateLimiter.intervalCheck t j) j = CallerPhase.sleeping w := by
  rw [RateLimiter.intervalCheck]
  split
  · right
    exact ⟨_, RateLimiter.getPhase_set_self t j _ hj⟩
  · left
    rw [RateLimiter.getPhase_dispatch, RateLimiter.getPhase_set_self t j _ hj]

/-- No event changes the limiter configuration. -/
theorem RateLimiter.step_cfg (s s1 : RLState) (e : RateLimiter.RLEvent)
    (h : RateLimiter.step s e = some s1) : s1.cfg = s.cfg := by
  cases e with
  | arrive i =>
    by_cases hph : RateLimiter.getPhase s i = CallerPhase.idle
    · by_cases hcap : s.running ≥ s.cfg.maxConcurrent
      · rw [RateLimiter.step, if_pos hph, if_pos hcap] at h
        rw [← Option.some.inj h]
        rfl
      · rw [RateLimiter.step, if_pos hph, if_neg hcap] at h
        rw [← Option.some.inj h]
        exact RateLimiter.intervalCheck_cfg s i
    · rw [RateLimiter.step, if_neg hph] at h
      cases h
  | wake i =>
    cases hph : RateLimiter.getPhase s i with
    | sleeping w =>
      simp only [RateLimiter.step, hph] at h
      by_cases hw : w ≤ s.time
      · rw [if_pos hw] at h
        rw [← Option.some.inj h]
        rfl
      · rw [if_neg hw] at h
        cases h
    | idle => simp [RateLimiter.step, hph] at h
    | queued => simp [RateLimiter.step, hph] at h
    | running => simp [RateLimiter.step, hph] at h
    | done => simp [RateLimiter.step, hph] at h
  | finish i ok =>
    by_cases hph : RateLimiter.getPhase s i = CallerPhase.running
    · simp only [RateLimiter.step, if_pos hph] at h
      cases hq : s.queue with
      | nil =>
        rw [hq] at h
        rw [← Option.some.inj h]
        rfl
      | cons j rest =>
        rw [hq] at h
        rw [← Option.some.inj h]
        exact RateLimiter.intervalCheck_cfg _ j
    · rw [RateLimiter.step, if_neg hph] at h
      cases h
  | tick dt =>
    simp only [RateLimiter.step] at h
    rw [← Option.some.inj h]

/-- No admission-serial run changes the limiter configuration. -/
theorem RateLimiter.runSerial_cfg (events : List RateLimiter.RLEvent)
    (s s1 : RLState) (h : RateLimiter.runSerial s events = some s1) :
    s1.cfg = s.cfg := by
  induction events generalizing s with
  | nil =>
    rw [RateLimiter.runSerial] at h
    rw [← Option.some.inj h]
  | cons e rest ih =>
    rw [RateLimiter.runSerial] at h
    cases hguard : (RateLimiter.isAdmission e && !RateLimiter.noSleeper s) with
    | true => rw [if_pos hguard] at h; cases h
    | false =>
      rw [if_neg (by rw [hguard]; exact Bool.false_ne_true)] at h
      cases hstep : RateLimiter.step s e with
      | none => rw [hstep] at h; cases h
      | some s2 =>
        rw [hstep] at h
        rw [ih s2 h]
        exact RateLimiter.step_cfg s s2 e hstep

/-- Claim C2 amended: the RateLimiter's quantitative bounds hold only
for admission-serial schedules — schedules in which no `execute` call
begins and no operation completes while some caller is waiting out the
rate-limit interval.  For every such schedule the in-flight count never
exceeds the concurrency ceiling and consecutive dispatches are at least
`60000 / requestsPerMinute` ms apart (in general event-loop schedules
both bounds can fail, because neither check is re-validated after the
interval sleep — see the counterexample).  Unconditionally: completion
behaves identically whether `fn` succeeded or failed (the `finally`
block); a completion with an empty queue just releases the slot
(`running` decrements); and a completion with a non-empty queue resumes
exactly the head of the queue, which is immediately running or in its
interval wait. -/
theorem rateLimiter_serial_spec :
    (∀ (cfg : RLConfig) (n : Nat) (events : List RateLimiter.RLEvent) (s : RLState),
      RateLimiter.runSerial (RateLimiter.init cfg n) events = some s →
      s.running ≤ cfg.maxConcurrent ∧
      RateLimiter.gapsOk cfg.minIntervalMs s.dispatches = true)
    ∧ (∀ (s : RLState) (i : Nat) (ok : Bool),
      RateLimiter.step s (.finish i ok) = RateLimiter.step s (.finish i true))
    ∧ (∀ (s s1 : RLState) (i : Nat) (ok : Bool),
      s.queue = [] → RateLimiter.step s (.finish i ok) = some s1 →
      s1.running = s.running - 1)
    ∧ (∀ (s s1 : RLState) (i j : Nat) (ok : Bool) (rest : List Nat),
      s.queue = j :: rest → j < s.phases.length →
      RateLimiter.step s (.finish i ok) = some s1 →
      s1.queue = rest ∧
      (RateLimiter.getPhase s1 j = CallerPhase.running ∨
        ∃ w, RateLimiter.getPhase s1 j = CallerPhase.sleeping w)) := by
  refine ⟨?_, ?_, ?_, ?_⟩
  · intro cfg n events s h
    have hinv := RateLimiter.inv_runSerial events _ s h (RateLimiter.inv_init cfg n)
    have hcfg : s.cfg = cfg := RateLimiter.runSerial_cfg events _ s h
    constructor
    · have h2 := hinv.run_le
      rw [hcfg] at h2
      exact h2
    · have h2 := hinv.gaps
      rw [hcfg] at h2
      exact h2
  · intro s i ok
    rfl
  · intro s s1 i ok hq hstep
    by_cases hph : RateLimiter.getPhase s i = CallerPhase.running
    · simp only [RateLimiter.step, if_pos hph] at hstep
      rw [hq] at hstep
      rw [← Option.some.inj hstep]
    · rw [RateLimiter.step, if_neg hph] at hstep
      cases hstep
  · intro s s1 i j ok rest hq hlt hstep
    by_cases hph : RateLimiter.getPhase s i = CallerPhase.running
    · simp only [RateLimiter.step, if_pos hph] at hstep
      rw [hq] at hstep
      rw [← Option.some.inj hstep]
      constructor
      · rw [RateLimiter.intervalCheck_queue]
      · apply RateLimiter.intervalCheck_phase
        show j < (s.phases.set i CallerPhase.done).length
        rw [List.length_set]
        exact hlt
    · rw [RateLimiter.step, if_neg hph] at hstep
      cases hstep

/-- Witness for the amended C2: the spec's own scenario — 1 concurrent
slot, three operations — run under an admission-serial schedule ends
within bounds (`running = 0`, dispatches 10ms apart), and a concrete
completion on a state with a queued caller releases the slot and
resumes exactly the queue head. -/
theorem rateLimiter_serial_spec_witness :
    RateLimiter.runSerial (RateLimiter.init ⟨1, 10⟩ 3) wEvsSerial = some wRLFinal
    ∧ wRLFinal.running ≤ 1
    ∧ RateLimiter.gapsOk 10 wRLFinal.dispatches = true
    ∧ RateLimiter.step wRLQueued (.finish 0 false) = some wRLResumed
    ∧ wRLResumed.queue = []
    ∧ (RateLimiter.getPhase wRLResumed 1 = CallerPhase.running ∨
        ∃ w, RateLimiter.getPhase wRLResumed 1 = CallerPhase.sleeping w) := by
  refine ⟨by decide, ?_, ?_, by decide, ?_, ?_⟩
  · exact (rateLimiter_serial_spec.1 ⟨1, 10⟩ 3 wEvsSerial wRLFinal (by decide)).1
  · exact (rateLimiter_serial_spec.1 ⟨1, 10⟩ 3 wEvsSerial wRLFinal (by decide)).2
  · exact (rateLimiter_serial_spec.2.2.2 wRLQueued wRLResumed 0 1 false []
      (by decide) (by decide) (by decide)).1
  · exact (rateLimiter_serial_spec.2.2.2 wRLQueued wRLResumed 0 1 false []
      (by decide) (by decide) (by decide)).2

end AnypointConnect
